import Mathlib

/-!
Verification of the Hwtr token engine (HMAC Web Tokens).

This file shallowly embeds the engine found in the repository sources
(`Hwtr` class, its crypto helpers `timingSafeEqual`, `bufferToBase64Url`,
`base64urlToUint8Array`, and the `jx` extended JSON codec from
`hwtr.formats.js`).  JS strings are modeled as `List Char`, byte buffers as
`List Nat` (with well-formedness `< 256` where it matters), JS numbers as
`ℚ` (every JS float is a rational; the platform JSON text round-trip for
numbers is exact and is modeled as the identity), clock readings as `Int`
epoch seconds, and HMAC as an abstract function parameter
`hmac : HKey → List Char → List Nat`.  Thrown JS errors are modeled with
`Except`.
-/

namespace Hwt

/-- JS strings, modeled as lists of characters. -/
abbrev JStr := List Char

/-- Model of JS `String.prototype.split` with a single-character separator:
`"".split('.')` is `[""]`, separators delimit possibly-empty fields. -/
def jsSplit (sep : Char) : JStr → List JStr
  | [] => [[]]
  | c :: cs =>
    if c = sep then [] :: jsSplit sep cs
    else
      match jsSplit sep cs with
      | [] => [[c]]
      | h :: t => (c :: h) :: t

/-- Model of JS `Array.prototype.join` with a single-character separator. -/
def jsJoin (sep : Char) : List JStr → JStr
  | [] => []
  | [x] => x
  | x :: y :: xs => x ++ sep :: jsJoin sep (y :: xs)

/-- Decimal digit character for `n % 10` (used by the model of JS
`String(number)` for integers). -/
def digitChar (n : Nat) : Char :=
  match n % 10 with
  | 0 => '0' | 1 => '1' | 2 => '2' | 3 => '3' | 4 => '4'
  | 5 => '5' | 6 => '6' | 7 => '7' | 8 => '8' | _ => '9'

/-- Decimal digits of `n`, most significant first; structural recursion on
a fuel bound so the definition computes by reduction. -/
def natStrGo : Nat → Nat → JStr
  | 0, n => [digitChar n]
  | fuel + 1, n =>
    if n < 10 then [digitChar n]
    else natStrGo fuel (n / 10) ++ [digitChar (n % 10)]

/-- Decimal numeral of a natural number, as JS `String(n)` prints it. -/
def natStr (n : Nat) : JStr := natStrGo n n

/-- Decimal numeral of an integer, as JS `String(i)` prints it. -/
def intStr (i : Int) : JStr :=
  if i < 0 then '-' :: natStr (-i).toNat else natStr i.toNat

/-- ASCII decimal digit test. -/
def isDigit (c : Char) : Bool := 48 ≤ c.toNat && c.toNat ≤ 57

/-- Value of a decimal digit string (most significant first). -/
def digitsVal (s : JStr) : Nat :=
  s.foldl (fun acc c => acc * 10 + (c.toNat - 48)) 0

/-- Model of JS `Number(s) || 0` restricted to the shapes that occur in a
token's expiry field: a non-empty all-digit string parses to its decimal
value, anything else yields `0`.  (Full JS `Number` accepts more forms —
signs, floats, hex — none of which can be produced by the engine's own
token assembly, which prints an integer.) -/
def jsNumberOr0 (s : JStr) : ℚ :=
  if s ≠ [] ∧ s.all isDigit then (digitsVal s : ℚ) else 0

/-- Model of JS `BigInt(string)` restricted to optionally-signed decimal
numerals (the only shape the `jx` codec emits): `BigInt('')` is `0n`, a
bare `-` or any non-digit throws. -/
def parseBigInt (s : JStr) : Option Int :=
  match s with
  | '-' :: rest =>
    if rest ≠ [] ∧ rest.all isDigit then some (-(digitsVal rest : Int)) else none
  | _ => if s.all isDigit then some ((digitsVal s : Int)) else none

/- ### Lemmas about split / join -/

theorem jsSplit_ne_nil (sep : Char) (s : JStr) : jsSplit sep s ≠ [] := by
  induction s with
  | nil => simp [jsSplit]
  | cons c cs ih =>
    simp only [jsSplit]
    split
    · simp
    · cases h : jsSplit sep cs with
      | nil => simp
      | cons a b => simp

/-- Splitting a separator-free string yields a single field. -/
theorem jsSplit_no_sep (sep : Char) (x : JStr) (hx : sep ∉ x) :
    jsSplit sep x = [x] := by
  induction x with
  | nil => simp [jsSplit]
  | cons c cs ih =>
    have hc : c ≠ sep := by
      intro h; exact hx (h ▸ List.mem_cons_self c cs)
    have hcs : sep ∉ cs := fun h => hx (List.mem_cons_of_mem _ h)
    simp only [jsSplit, if_neg hc, ih hcs]

/-- Splitting a string that starts with a separator-free field `p` followed
by a separator peels off exactly `p`. -/
theorem jsSplit_field_cons (sep : Char) (p s : JStr) (hp : sep ∉ p) :
    jsSplit sep (p ++ sep :: s) = p :: jsSplit sep s := by
  induction p with
  | nil => simp [jsSplit]
  | cons c cs ih =>
    have hc : c ≠ sep := by
      intro h; exact hp (h ▸ List.mem_cons_self c cs)
    have hcs : sep ∉ cs := fun h => hp (List.mem_cons_of_mem _ h)
    simp only [List.cons_append, jsSplit, if_neg hc, List.append_eq, ih hcs]

/-- Splitting the join of a non-empty list of separator-free fields recovers
the fields. -/
theorem jsSplit_jsJoin (sep : Char) (fs : List JStr) (hne : fs ≠ [])
    (hf : ∀ f ∈ fs, sep ∉ f) : jsSplit sep (jsJoin sep fs) = fs := by
  induction fs with
  | nil => exact absurd rfl hne
  | cons x xs ih =>
    cases xs with
    | nil =>
      simp only [jsJoin]
      exact jsSplit_no_sep sep x (hf x (List.mem_cons_self _ _))
    | cons y ys =>
      simp only [jsJoin]
      rw [jsSplit_field_cons sep x _ (hf x (List.mem_cons_self _ _))]
      rw [ih (by simp) (fun f hmem => hf f (List.mem_cons_of_mem _ hmem))]

/- ### Lemmas about decimal numerals -/

theorem digitChar_isDigit (n : Nat) : isDigit (digitChar n) = true := by
  have h : n % 10 < 10 := Nat.mod_lt _ (by omega)
  unfold digitChar
  generalize n % 10 = m at h ⊢
  interval_cases m <;> decide

theorem digitChar_toNat (n : Nat) : (digitChar n).toNat = 48 + n % 10 := by
  have h : n % 10 < 10 := Nat.mod_lt _ (by omega)
  unfold digitChar
  generalize n % 10 = m at h ⊢
  interval_cases m <;> decide

theorem natStrGo_congr : ∀ (fuel fuel' n : Nat), n ≤ fuel → n ≤ fuel' →
    natStrGo fuel n = natStrGo fuel' n := by
  intro fuel
  induction fuel with
  | zero =>
    intro fuel' n h h'
    have : n = 0 := by omega
    subst this
    cases fuel' with
    | zero => rfl
    | succ k => simp [natStrGo]
  | succ k ih =>
    intro fuel' n h h'
    by_cases hn : n < 10
    · cases fuel' with
      | zero =>
        have : n = 0 := by omega
        subst this
        simp [natStrGo]
      | succ m => simp [natStrGo, hn]
    · cases fuel' with
      | zero => omega
      | succ m =>
        simp only [natStrGo, if_neg hn]
        rw [ih m (n / 10) (by omega) (by omega)]

theorem natStr_unfold (n : Nat) :
    natStr n = if n < 10 then [digitChar n]
      else natStr (n / 10) ++ [digitChar (n % 10)] := by
  unfold natStr
  by_cases hn : n < 10
  · rw [if_pos hn]
    cases n with
    | zero => rfl
    | succ m => simp [natStrGo, hn]
  · rw [if_neg hn]
    have hm : ∃ m, n = m + 1 := ⟨n - 1, by omega⟩
    obtain ⟨m, rfl⟩ := hm
    simp only [natStrGo, if_neg hn]
    rw [natStrGo_congr m ((m + 1) / 10) ((m + 1) / 10) (by omega) (by omega)]

theorem natStr_ne_nil (n : Nat) : natStr n ≠ [] := by
  rw [natStr_unfold]
  split <;> simp

theorem natStr_all_digits (n : Nat) : ∀ c ∈ natStr n, isDigit c = true := by
  induction n using Nat.strong_induction_on with
  | _ n ih =>
    rw [natStr_unfold]
    split
    · intro c hc
      simp only [List.mem_singleton] at hc
      exact hc ▸ digitChar_isDigit n
    · intro c hc
      rcases List.mem_append.1 hc with h | h
      · exact ih (n / 10) (Nat.div_lt_self (by omega) (by omega)) c h
      · simp only [List.mem_singleton] at h
        exact h ▸ digitChar_isDigit (n % 10)

theorem isDigit_ne_dot {c : Char} (h : isDigit c = true) : c ≠ '.' := by
  intro hc; subst hc; exact absurd h (by decide)

theorem isDigit_ne_dash {c : Char} (h : isDigit c = true) : c ≠ '-' := by
  intro hc; subst hc; exact absurd h (by decide)

theorem natStr_no_dot (n : Nat) : '.' ∉ natStr n := by
  intro h
  exact isDigit_ne_dot (natStr_all_digits n '.' h) rfl

theorem digitsVal_append (a : JStr) (c : Char) :
    digitsVal (a ++ [c]) = digitsVal a * 10 + (c.toNat - 48) := by
  simp [digitsVal, List.foldl_append]

theorem digitsVal_natStr (n : Nat) : digitsVal (natStr n) = n := by
  induction n using Nat.strong_induction_on with
  | _ n ih =>
    rw [natStr_unfold]
    split
    · next h =>
      simp [digitsVal, digitChar_toNat]
      omega
    · next h =>
      rw [digitsVal_append, ih (n / 10) (Nat.div_lt_self (by omega) (by omega)),
        digitChar_toNat]
      omega

theorem jsNumberOr0_natStr (n : Nat) : jsNumberOr0 (natStr n) = (n : ℚ) := by
  unfold jsNumberOr0
  rw [if_pos ⟨natStr_ne_nil n, List.all_eq_true.2 (natStr_all_digits n)⟩,
    digitsVal_natStr]

/- ### base64url transcoding (`bufferToBase64Url` / `base64urlToUint8Array`) -/

/-- The base64url alphabet: 6-bit value to character.  `bufferToBase64Url`
in the source produces standard base64 via `btoa` and then maps `+` to `-`
and `/` to `_` and strips `=`; composing those steps gives this direct
url-alphabet table. -/
def b64Char (v : Nat) : Char :=
  if v < 26 then Char.ofNat (65 + v)
  else if v < 52 then Char.ofNat (97 + (v - 26))
  else if v < 62 then Char.ofNat (48 + (v - 52))
  else if v = 62 then '-' else '_'

/-- Model of `bufferToBase64Url`: base64url-encode a byte buffer, no
padding.  Three bytes become four characters; a trailing byte or byte pair
becomes two or three characters. -/
def b64uEncode : List Nat → List Char
  | [] => []
  | [b0] => [b64Char (b0 / 4), b64Char (b0 % 4 * 16)]
  | [b0, b1] => [b64Char (b0 / 4), b64Char (b0 % 4 * 16 + b1 / 16), b64Char (b1 % 16 * 4)]
  | b0 :: b1 :: b2 :: rest =>
    b64Char (b0 / 4) :: b64Char (b0 % 4 * 16 + b1 / 16) ::
    b64Char (b1 % 16 * 4 + b2 / 64) :: b64Char (b2 % 64) :: b64uEncode rest

/-- Standard base64 alphabet value of a character, as consumed by `atob`. -/
def b64StdVal (c : Char) : Option Nat :=
  if 65 ≤ c.toNat ∧ c.toNat ≤ 90 then some (c.toNat - 65)
  else if 97 ≤ c.toNat ∧ c.toNat ≤ 122 then some (c.toNat - 97 + 26)
  else if 48 ≤ c.toNat ∧ c.toNat ≤ 57 then some (c.toNat - 48 + 52)
  else if c = '+' then some 62
  else if c = '/' then some 63
  else none

/-- The `-`/`_` to `+`/`/` replacement performed by `base64urlToUint8Array`. -/
def urlToStd (c : Char) : Char :=
  if c = '-' then '+' else if c = '_' then '/' else c

/-- Decode groups of standard-base64 characters to bytes: four characters
to three bytes; a trailing group of two or three characters to one or two
bytes (spare low bits discarded, as forgiving-base64 does); a trailing
single character, or any character outside the alphabet (including a stray
`=` left after padding removal), fails. -/
def b64Groups : List Char → Option (List Nat)
  | [] => some []
  | [c0, c1] => do
    let v0 ← b64StdVal c0
    let v1 ← b64StdVal c1
    pure [v0 * 4 + v1 / 16]
  | [c0, c1, c2] => do
    let v0 ← b64StdVal c0
    let v1 ← b64StdVal c1
    let v2 ← b64StdVal c2
    pure [v0 * 4 + v1 / 16, v1 % 16 * 16 + v2 / 4]
  | c0 :: c1 :: c2 :: c3 :: rest => do
    let v0 ← b64StdVal c0
    let v1 ← b64StdVal c1
    let v2 ← b64StdVal c2
    let v3 ← b64StdVal c3
    let bs ← b64Groups rest
    pure ((v0 * 4 + v1 / 16) :: (v1 % 16 * 16 + v2 / 4) :: (v2 % 4 * 64 + v3) :: bs)
  | [_] => none

/-- Drop a single trailing `=` if present. -/
def dropEq (s : List Char) : List Char :=
  if s.getLast? = some '=' then s.dropLast else s

/-- Model of the forgiving-base64 decode performed by `atob`: the input
length must be a multiple of four, up to two trailing `=` are removed, a
remainder of one character is an error, and the groups are then decoded.
(ASCII-whitespace stripping is omitted: the engine never feeds whitespace
here.) -/
def jsAtob (s : List Char) : Option (List Nat) :=
  if s.length % 4 ≠ 0 then none
  else
    let t := dropEq (dropEq s)
    if t.length % 4 = 1 then none else b64Groups t

/-- Model of `base64urlToUint8Array` (string input): replace the url
alphabet by the standard one, re-pad, `atob`; on any decode failure return
the fixed empty buffer (`emptyArray` in the source). -/
def base64urlToUint8Array (s : List Char) : List Nat :=
  (jsAtob (s.map urlToStd ++
    List.replicate ((4 - (s.map urlToStd).length % 4) % 4) '=')).getD []

/- ### base64url lemmas -/

theorem b64_val_roundtrip : ∀ v < 64, b64StdVal (urlToStd (b64Char v)) = some v := by
  decide

theorem b64Char_ne_dot : ∀ v < 64, b64Char v ≠ '.' := by
  decide

theorem urlToStd_b64Char_ne_eq : ∀ v < 64, urlToStd (b64Char v) ≠ '=' := by
  decide

theorem dropEq_concat_eq (a : List Char) : dropEq (a ++ ['=']) = a := by
  simp [dropEq]

theorem dropEq_no_eq (a : List Char) (h : '=' ∉ a) : dropEq a = a := by
  unfold dropEq
  split
  · next hl =>
    obtain ⟨hne, hx⟩ := List.mem_getLast?_eq_getLast hl
    exact absurd (by rw [hx]; exact List.getLast_mem hne) h
  · rfl

/-- Every character of an encoded well-formed buffer maps into the standard
alphabet (in particular it is not `=`). -/
theorem b64uEncode_ne_eq (bs : List Nat) (h : ∀ b ∈ bs, b < 256) :
    '=' ∉ (b64uEncode bs).map urlToStd := by
  induction bs using b64uEncode.induct with
  | case1 => simp [b64uEncode]
  | case2 b0 =>
    have h0 : b0 < 256 := h b0 (by simp)
    simp only [b64uEncode, List.map_cons, List.map_nil, List.mem_cons,
      List.not_mem_nil, or_false]
    push_neg
    refine ⟨?_, ?_⟩ <;> { intro he; exact urlToStd_b64Char_ne_eq _ (by omega) he.symm }
  | case3 b0 b1 =>
    have h0 : b0 < 256 := h b0 (by simp)
    have h1 : b1 < 256 := h b1 (by simp)
    simp only [b64uEncode, List.map_cons, List.map_nil, List.mem_cons,
      List.not_mem_nil, or_false]
    push_neg
    refine ⟨?_, ?_, ?_⟩ <;> { intro he; exact urlToStd_b64Char_ne_eq _ (by omega) he.symm }
  | case4 b0 b1 b2 rest ih =>
    have h0 : b0 < 256 := h b0 (by simp)
    have h1 : b1 < 256 := h b1 (by simp)
    have h2 : b2 < 256 := h b2 (by simp)
    have hrest : ∀ b ∈ rest, b < 256 := fun b hb => h b (by simp [hb])
    simp only [b64uEncode, List.map_cons, List.mem_cons]
    push_neg
    refine ⟨?_, ?_, ?_, ?_, ih hrest⟩ <;>
      { intro he; exact urlToStd_b64Char_ne_eq _ (by omega) he.symm }

/-- No character of an encoded well-formed buffer is the field separator. -/
theorem b64uEncode_no_dot (bs : List Nat) (h : ∀ b ∈ bs, b < 256) :
    '.' ∉ b64uEncode bs := by
  induction bs using b64uEncode.induct with
  | case1 => simp [b64uEncode]
  | case2 b0 =>
    have h0 : b0 < 256 := h b0 (by simp)
    simp only [b64uEncode, List.mem_cons, List.not_mem_nil, or_false]
    push_neg
    refine ⟨?_, ?_⟩ <;> { intro he; exact b64Char_ne_dot _ (by omega) he.symm }
  | case3 b0 b1 =>
    have h0 : b0 < 256 := h b0 (by simp)
    have h1 : b1 < 256 := h b1 (by simp)
    simp only [b64uEncode, List.mem_cons, List.not_mem_nil, or_false]
    push_neg
    refine ⟨?_, ?_, ?_⟩ <;> { intro he; exact b64Char_ne_dot _ (by omega) he.symm }
  | case4 b0 b1 b2 rest ih =>
    have h0 : b0 < 256 := h b0 (by simp)
    have h1 : b1 < 256 := h b1 (by simp)
    have h2 : b2 < 256 := h b2 (by simp)
    have hrest : ∀ b ∈ rest, b < 256 := fun b hb => h b (by simp [hb])
    simp only [b64uEncode, List.mem_cons]
    push_neg
    refine ⟨?_, ?_, ?_, ?_, ih hrest⟩ <;>
      { intro he; exact b64Char_ne_dot _ (by omega) he.symm }

theorem b64uEncode_length_mod (bs : List Nat) :
    (b64uEncode bs).length % 4 = 0 ∨ (b64uEncode bs).length % 4 = 2 ∨
    (b64uEncode bs).length % 4 = 3 := by
  induction bs using b64uEncode.induct with
  | case1 => simp [b64uEncode]
  | case2 b0 => simp [b64uEncode]
  | case3 b0 b1 => simp [b64uEncode]
  | case4 b0 b1 b2 rest ih =>
    simp only [b64uEncode, List.length_cons]
    omega

/-- Group decoding inverts encoding on well-formed buffers. -/
theorem b64Groups_encode (bs : List Nat) (h : ∀ b ∈ bs, b < 256) :
    b64Groups ((b64uEncode bs).map urlToStd) = some bs := by
  induction bs using b64uEncode.induct with
  | case1 => simp [b64uEncode, b64Groups]
  | case2 b0 =>
    have h0 : b0 < 256 := h b0 (by simp)
    simp only [b64uEncode, List.map_cons, List.map_nil, b64Groups,
      b64_val_roundtrip _ (by omega : b0 / 4 < 64),
      b64_val_roundtrip _ (by omega : b0 % 4 * 16 < 64), Option.bind_eq_bind,
      Option.some_bind, Option.pure_def, Option.some.injEq, List.cons.injEq,
      and_true]
    omega
  | case3 b0 b1 =>
    have h0 : b0 < 256 := h b0 (by simp)
    have h1 : b1 < 256 := h b1 (by simp)
    simp only [b64uEncode, List.map_cons, List.map_nil, b64Groups,
      b64_val_roundtrip _ (by omega : b0 / 4 < 64),
      b64_val_roundtrip _ (by omega : b0 % 4 * 16 + b1 / 16 < 64),
      b64_val_roundtrip _ (by omega : b1 % 16 * 4 < 64), Option.bind_eq_bind,
      Option.some_bind, Option.pure_def, Option.some.injEq, List.cons.injEq,
      and_true]
    omega
  | case4 b0 b1 b2 rest ih =>
    have h0 : b0 < 256 := h b0 (by simp)
    have h1 : b1 < 256 := h b1 (by simp)
    have h2 : b2 < 256 := h b2 (by simp)
    have hrest : ∀ b ∈ rest, b < 256 := fun b hb => h b (by simp [hb])
    simp only [b64uEncode, List.map_cons, b64Groups,
      b64_val_roundtrip _ (by omega : b0 / 4 < 64),
      b64_val_roundtrip _ (by omega : b0 % 4 * 16 + b1 / 16 < 64),
      b64_val_roundtrip _ (by omega : b1 % 16 * 4 + b2 / 64 < 64),
      b64_val_roundtrip _ (by omega : b2 % 64 < 64), ih hrest,
      Option.bind_eq_bind, Option.some_bind, Option.pure_def,
      Option.some.injEq, List.cons.injEq, and_true]
    omega

/-- Full pipeline: padding then `atob` of an encoded well-formed buffer
recovers the bytes. -/
theorem jsAtob_pipeline (bs : List Nat) (h : ∀ b ∈ bs, b < 256) :
    jsAtob ((b64uEncode bs).map urlToStd ++
      List.replicate ((4 - ((b64uEncode bs).map urlToStd).length % 4) % 4) '=') =
    some bs := by
  set std := (b64uEncode bs).map urlToStd with hstd
  have hlen : std.length = (b64uEncode bs).length := by simp [hstd]
  have hmod := b64uEncode_length_mod bs
  have hne : '=' ∉ std := b64uEncode_ne_eq bs h
  have hgroups : b64Groups std = some bs := b64Groups_encode bs h
  set k := (4 - std.length % 4) % 4 with hk
  have hpadded_len : (std ++ List.replicate k '=').length % 4 = 0 := by
    simp only [List.length_append, List.length_replicate]
    omega
  have hstrip : dropEq (dropEq (std ++ List.replicate k '=')) = std := by
    have hk2 : k = 0 ∨ k = 1 ∨ k = 2 := by omega
    rcases hk2 with h0 | h1 | h2
    · rw [h0]
      simp only [List.replicate_zero, List.append_nil]
      rw [dropEq_no_eq std hne, dropEq_no_eq std hne]
    · rw [h1]
      simp only [List.replicate_one]
      rw [dropEq_concat_eq, dropEq_no_eq std hne]
    · rw [h2]
      rw [show List.replicate 2 '=' = ['='] ++ ['='] from rfl, ← List.append_assoc]
      rw [dropEq_concat_eq, dropEq_concat_eq]
  unfold jsAtob
  rw [if_neg (by omega), hstrip, if_neg (by omega)]
  exact hgroups

/-- Round trip: decoding the base64url encoding of a well-formed byte
buffer returns the buffer. -/
theorem b64u_roundtrip (bs : List Nat) (h : ∀ b ∈ bs, b < 256) :
    base64urlToUint8Array (b64uEncode bs) = bs := by
  show (jsAtob _).getD [] = bs
  rw [jsAtob_pipeline bs h]
  rfl

/-- Encoding is injective on well-formed buffers. -/
theorem b64uEncode_inj {a b : List Nat} (ha : ∀ x ∈ a, x < 256)
    (hb : ∀ x ∈ b, x < 256) (h : b64uEncode a = b64uEncode b) : a = b := by
  have := b64u_roundtrip a ha
  rw [h, b64u_roundtrip b hb] at this
  exact this.symm

/- ### `timingSafeEqual` -/

/-- Model of the byte-level core of `timingSafeEqual`, instrumented with
the number of loop iterations performed (second component).  The source
returns `false` immediately when the lengths differ (the loop body never
runs, iteration count 0); for equal lengths it XOR-accumulates every byte
pair into one accumulator with no early exit (iteration count = length). -/
def timingSafeEqualInstr (a b : List Nat) : Bool × Nat :=
  if a.length ≠ b.length then (false, 0)
  else (((a.zip b).foldl (fun r p => r ||| (p.1 ^^^ p.2)) 0) == 0, (a.zip b).length)

/-- Model of `timingSafeEqual` on two string operands (the call the engine
makes for signatures): each string is normalized to bytes with
`base64urlToUint8Array`, then compared byte-wise. -/
def timingSafeEqual (expected actual : JStr) : Bool :=
  (timingSafeEqualInstr (base64urlToUint8Array expected)
    (base64urlToUint8Array actual)).1

theorem natOr_eq_zero {a b : Nat} : a ||| b = 0 ↔ a = 0 ∧ b = 0 := by
  constructor
  · intro h
    have ha : ∀ i, a.testBit i = false := by
      intro i
      have := congrArg (fun n => n.testBit i) h
      simp [Nat.testBit_or] at this
      exact this.1
    have hb : ∀ i, b.testBit i = false := by
      intro i
      have := congrArg (fun n => n.testBit i) h
      simp [Nat.testBit_or] at this
      exact this.2
    exact ⟨Nat.eq_of_testBit_eq (fun i => by simp [ha i, Nat.zero_testBit]),
           Nat.eq_of_testBit_eq (fun i => by simp [hb i, Nat.zero_testBit])⟩
  · rintro ⟨rfl, rfl⟩
    rfl

theorem foldl_or_xor_eq_zero (l : List (Nat × Nat)) (r : Nat) :
    (l.foldl (fun r p => r ||| (p.1 ^^^ p.2)) r = 0) ↔
      (r = 0 ∧ ∀ p ∈ l, p.1 = p.2) := by
  induction l generalizing r with
  | nil => simp
  | cons x xs ih =>
    simp only [List.foldl_cons, ih, List.mem_cons, natOr_eq_zero,
      Nat.xor_eq_zero]
    constructor
    · rintro ⟨⟨h1, h2⟩, h3⟩
      refine ⟨h1, fun p hp => ?_⟩
      rcases hp with rfl | hp
      · exact h2
      · exact h3 p hp
    · rintro ⟨h1, h2⟩
      exact ⟨⟨h1, h2 x (Or.inl rfl)⟩, fun p hp => h2 p (Or.inr hp)⟩

theorem zip_forall_eq {a b : List Nat} (hlen : a.length = b.length)
    (h : ∀ p ∈ a.zip b, p.1 = p.2) : a = b := by
  induction a generalizing b with
  | nil => cases b with
    | nil => rfl
    | cons y ys => simp at hlen
  | cons x xs ih =>
    cases b with
    | nil => simp at hlen
    | cons y ys =>
      have hx : x = y := h (x, y) (by simp [List.zip_cons_cons])
      have : xs = ys := by
        refine ih (by simpa using hlen) (fun p hp => h p ?_)
        simp [List.zip_cons_cons, hp]
      rw [hx, this]

theorem zip_self_eq (a : List Nat) : ∀ p ∈ a.zip a, p.1 = p.2 := by
  induction a with
  | nil => simp
  | cons x xs ih =>
    intro p hp
    rcases (by simpa [List.zip_cons_cons] using hp : p = (x, x) ∨ p ∈ xs.zip xs) with rfl | hp
    · rfl
    · exact ih p hp

/-- The byte-level comparison returns `true` exactly when the byte lists
are equal. -/
theorem timingSafeEqualInstr_eq (a b : List Nat) :
    (timingSafeEqualInstr a b).1 = true ↔ a = b := by
  unfold timingSafeEqualInstr
  split
  · next hlen =>
    show (false = true) ↔ a = b
    constructor
    · intro h; exact absurd h (by simp)
    · intro hab; exact absurd (hab ▸ rfl) hlen
  · next hlen =>
    push_neg at hlen
    show (((a.zip b).foldl (fun r p => r ||| (p.1 ^^^ p.2)) 0) == 0) = true ↔ a = b
    rw [beq_iff_eq, foldl_or_xor_eq_zero]
    constructor
    · rintro ⟨-, h⟩
      exact zip_forall_eq hlen h
    · rintro rfl
      exact ⟨rfl, zip_self_eq a⟩

/- ### JS number helpers -/

/-- JS `ToIntegerOrInfinity`-style truncation toward zero of a rational. -/
def jsTrunc (q : ℚ) : Int :=
  if q < 0 then -(⌊-q⌋) else ⌊q⌋

theorem jsTrunc_intCast (i : Int) : jsTrunc (i : ℚ) = i := by
  unfold jsTrunc
  split
  · rw [show -(i : ℚ) = ((-i : Int) : ℚ) by push_cast; ring, Int.floor_intCast]
    omega
  · exact Int.floor_intCast i

theorem jsTrunc_natCast (n : Nat) : jsTrunc (n : ℚ) = n := by
  rw [show ((n : ℚ)) = ((n : Int) : ℚ) by push_cast; ring, jsTrunc_intCast]

/-- Model of `Hwtr.prototype.numeric(value, preset, min, max)`: a `none`
argument stands for any JS value whose `Number(...)` conversion is NaN.
The NaN check comes first, then the clamps. -/
def jsNumeric (value : Option ℚ) (preset min max : ℚ) : ℚ :=
  match value with
  | none => preset
  | some n => if n < min then min else if n > max then max else n

/-- Convenience for ASCII string literals. -/
def strLit (s : String) : JStr := s.data

/- ### Engine data model -/

/-- An imported signing key: its id and (opaquely) the key material the
HMAC handle was derived from.  The raw secret buffer scrubbing
(`clearBuffer`) has no observable effect on the engine's input/output
behavior and is not modeled. -/
structure HKey where
  id : JStr
  material : List Nat
deriving DecidableEq

/-- A payload codec: `encode` and `decode` may fail (`none` models a
thrown JS error). -/
structure Codec (V : Type) where
  encode : V → Option (List Nat)
  decode : List Nat → Option V

/-- The engine state established by the `Hwtr` constructor.  `keys` is the
`#keys` object written by `importKeys`: an association list from property
name to imported key that contains one entry per imported key id **plus**
the `current` alias entry (`this.#keys.current = curr`).  `registry` is
the static `#codecs` object: a slot holds `none` for the pre-registered
placeholder `j: null` and `some c` once a codec is registered. -/
structure Engine (V : Type) where
  errorOnInvalid : Bool
  errorOnExpired : Bool
  errorOnEncoding : Bool
  errorOnGenerate : Bool
  expiresInSeconds : ℚ
  leewaySeconds : ℚ
  maxTokenSizeBytes : ℚ
  signatureSize : ℚ
  format : JStr
  registry : List (JStr × Option (Codec V))
  keys : List (JStr × HKey)

/-- Own-property lookup on the `#codecs` object.  A name that misses
every own property can still read truthy off `Object.prototype`; that
prototype-chain case is handled where the source tests truthiness
(`protoTruthy`, in `verifyParts`). -/
def lookupSlot {V : Type} (reg : List (JStr × Option (Codec V))) (name : JStr) :
    Option (Option (Codec V)) :=
  (reg.find? (fun p => p.1 == name)).map Prod.snd

/-- Own-property lookup on the `#keys` object (imported key ids plus the
`current` alias).  A kid that misses every own property can still read
truthy off `Object.prototype`; that prototype-chain case is handled
where the source tests truthiness (`protoTruthy`, in
`verifyWithCodec`). -/
def lookupKey (keys : List (JStr × HKey)) (kid : JStr) : Option HKey :=
  (keys.find? (fun p => p.1 == kid)).map Prod.snd

/-- The fixed token prefix `hwt`. -/
def hwtPfx : JStr := strLit "hwt"

/-- The result object populated by `isExpired(val, data, leeway)`. -/
structure TimeCheck where
  expires : ℚ
  now : Int
  expired : Bool
  validTime : Bool
  withinLeeway : Option Bool
deriving DecidableEq

/-- Model of `isExpired`: `expired = expiry <= now`; a non-expired token
is immediately valid (and `withinLeeway` is never set); an expired token
is valid while `now - expiry <= leeway`. -/
def isExpired (leeway : ℚ) (now : Int) (val : JStr) : TimeCheck :=
  let expiry := jsNumberOr0 val
  if expiry ≤ (now : ℚ) then
    { expires := expiry, now := now, expired := true,
      validTime := decide ((now : ℚ) - expiry ≤ leeway),
      withinLeeway := some (decide ((now : ℚ) - expiry ≤ leeway)) }
  else
    { expires := expiry, now := now, expired := false, validTime := true,
      withinLeeway := none }

/-- The result object returned by `verify` (and partially by `decode`).
Fields the source only sets on some paths are `Option`s; `none` means the
JS property was never assigned. -/
structure VerifyResult (V : Type) where
  ok : Bool := false
  data : Option V := none
  error : Option JStr := none
  validTime : Option Bool := none
  expired : Option Bool := none
  expires : Option ℚ := none
  withinLeeway : Option Bool := none
deriving DecidableEq

/-- Model of `generate(text, options)`: HMAC-sign `text` with `key`,
base64url the result, and truncate to `signatureSize` characters when that
is nonzero (`sig.slice(0, signatureSize)`).  Returns `[sig, key.id]`.  The
HMAC itself is the abstract parameter `hmac`; the crypto-failure path
(`errorOnGenerate`) cannot occur for a total `hmac`. -/
def generate (hmac : HKey → JStr → List Nat) (sigSize : ℚ) (key : HKey)
    (text : JStr) : JStr × JStr :=
  let sig := b64uEncode (hmac key text)
  (if sigSize = 0 then sig else sig.take (jsTrunc sigSize).toNat, key.id)

/-- JS `String(number)` for the numbers the engine prints: integers print
in decimal.  (A non-integer lifetime would put a `.` inside the expiry
field; no verified claim exercises that, and JS float formatting is not
modeled — the `num/den` spelling below only marks the case.) -/
def jsNumToStr (q : ℚ) : JStr :=
  if q.den = 1 then intStr q.num
  else intStr q.num ++ '/' :: natStr q.den

/-- Errors `_createWith` can raise: a codec `encode` throw propagates
unchanged; an oversized token raises `hwt size exceeded N bytes` in
strict (`errorOnInvalid`) mode. -/
inductive CreateErr where
  | encodingThrew
  | sizeExceeded
deriving DecidableEq

/-- The JS-object property name `current`. -/
def currentName : JStr := strLit "current"

/-- Model of `_createWith(exp, dataShown, dataHidden)`.  The signing input
is `[exp, format, payload]`, extended with the base64url of the encoded
hidden input when one is supplied; the hidden element is never placed in
the emitted token.  The token is `prefix.sig.keyId.exp.format.payload`;
an oversized token is either rejected (strict mode) or truncated to the
maximum size.  Unreachable JS `TypeError` paths (unregistered instance
format, missing current key) are mapped to `encodingThrew`. -/
def _createWith {V : Type} (hmac : HKey → JStr → List Nat) (e : Engine V)
    (exp : ℚ) (dataShown : V) (dataHidden : Option V) : Except CreateErr JStr :=
  match lookupSlot e.registry e.format with
  | none => .error .encodingThrew
  | some none => .error .encodingThrew
  | some (some codec) =>
    match codec.encode dataShown with
    | none => .error .encodingThrew
    | some encShown =>
      let item := b64uEncode encShown
      let payload : List JStr := [jsNumToStr exp, e.format, item]
      let signingParts : Option (List JStr) :=
        match dataHidden with
        | none => some payload
        | some dh => (codec.encode dh).map (fun encH => payload ++ [b64uEncode encH])
      match signingParts with
      | none => .error .encodingThrew
      | some parts =>
        match lookupKey e.keys currentName with
        | none => .error .encodingThrew
        | some curr =>
          let sigkid := generate hmac e.signatureSize curr (jsJoin '.' parts)
          let token := jsJoin '.' ([hwtPfx, sigkid.1, sigkid.2] ++ payload)
          if (token.length : ℚ) > e.maxTokenSizeBytes then
            if e.errorOnInvalid then .error .sizeExceeded
            else .ok (token.take (jsTrunc e.maxTokenSizeBytes).toNat)
          else .ok token

/-- A JS argument as the engine's numeric plumbing sees it: absent
(`undefined`, which triggers default parameters), a value whose
`Number(...)` is NaN, or a number. -/
inductive JsArg where
  | undef
  | nan
  | num (q : ℚ)
deriving DecidableEq

/-- Model of `expiresAt(secondsForward = this.#expiresInSeconds)`:
`nowSeconds + numeric(secondsForward, 1)`, i.e. preset `1`, clamp range
`[1, 31557600]`. -/
def expiresAt {V : Type} (e : Engine V) (now : Int) (secondsForward : JsArg) : ℚ :=
  let sf : Option ℚ :=
    match secondsForward with
    | .undef => some e.expiresInSeconds
    | .nan => none
    | .num q => some q
  (now : ℚ) + jsNumeric sf 1 1 31557600

/-- Model of `createWith(expiresInSeconds, dataShown, dataHidden)`. -/
def createWith {V : Type} (hmac : HKey → JStr → List Nat) (e : Engine V)
    (now : Int) (ttl : JsArg) (dataShown : V) (dataHidden : Option V) :
    Except CreateErr JStr :=
  _createWith hmac e (expiresAt e now ttl) dataShown dataHidden

/-- Model of `create(dataShown, dataHidden)`:
`exp = nowSeconds + #expiresInSeconds`. -/
def create {V : Type} (hmac : HKey → JStr → List Nat) (e : Engine V)
    (now : Int) (dataShown : V) (dataHidden : Option V) :
    Except CreateErr JStr :=
  _createWith hmac e ((now : ℚ) + e.expiresInSeconds) dataShown dataHidden

/-- `Hwtr.#codecs[format || this.format]`: an empty format field falls
back to the instance's configured format name (not necessarily `j`). -/
def verifyFormatName (selfFormat fmtField : JStr) : JStr :=
  if fmtField = [] then selfFormat else fmtField

/-- `hwt unknown encoding "<name>"` with the raw format field spliced in. -/
def unknownEncodingMsg (fmtField : JStr) : JStr :=
  strLit "hwt unknown encoding \"" ++ fmtField ++ strLit "\""

/-- The time-related fields `verify` writes on the result object:
`validTime`, `expired`, `expires` always, `withinLeeway` only when the
token is expired. -/
def vrTime {V : Type} (time : TimeCheck) : VerifyResult V :=
  let r0 : VerifyResult V :=
    { validTime := some time.validTime, expired := some time.expired,
      expires := some time.expires }
  if time.expired then { r0 with withinLeeway := time.withinLeeway } else r0

/-- The property names a plain JS object (`{}`) inherits from
`Object.prototype`.  `#keys` and `#codecs` are plain objects, so a
property read with one of these names that misses every own property
still yields a truthy value (a built-in function, or for `__proto__` the
`Object.prototype` object itself). -/
def protoNames : List JStr :=
  [strLit "constructor", strLit "hasOwnProperty", strLit "isPrototypeOf",
   strLit "propertyIsEnumerable", strLit "toLocaleString", strLit "toString",
   strLit "valueOf", strLit "__defineGetter__", strLit "__defineSetter__",
   strLit "__lookupGetter__", strLit "__lookupSetter__", strLit "__proto__"]

/-- Whether `obj[name]` on a plain object with no own property `name` is
still truthy, via the prototype chain. -/
def protoTruthy (name : JStr) : Bool := protoNames.contains name

/-- How a prototype-inherited `#codecs` hit behaves as a codec: the
inherited value (e.g. `Object.prototype.toString`) has no `encode` or
`decode` method, so every call throws — modeled as always `none`. -/
def protoCodec {V : Type} : Codec V := ⟨fun _ => none, fun _ => none⟩

/-- What `verify` does when `generate` fails (as it does for a
prototype-inherited `#keys` hit, whose `key.key` is undefined so
`crypto.subtle.sign` rejects): with `errorOnGenerate` set (the default)
`generate` throws `hwt failed to generate HMAC signature`; with it
cleared `generate` returns the `Error` object, and `verify`'s array
destructuring `const [resign] = ...` of that non-iterable throws a
`TypeError`.  Either way the call raises. -/
def generateThrow {V : Type} (e : Engine V) : Except JStr (VerifyResult V) :=
  Except.error
    (if e.errorOnGenerate then strLit "hwt failed to generate HMAC signature"
     else strLit "TypeError: err is not iterable")

/-- The tail of `verify` once the codec value is resolved (either a
registered codec or a truthy prototype-inherited value, passed as
`protoCodec`): build the signing input (hidden element included),
resolve the key through `#keys[kid]`, recompute and compare the
signature, decode the payload.  A `kid` that misses every own `#keys`
property but names an `Object.prototype` property passes the
`if (!key)` test and fails inside `generate` (`generateThrow`). -/
def verifyWithCodec {V : Type} (hmac : HKey → JStr → List Nat) (e : Engine V)
    (now : Int) (sig kid exp format dataShown : JStr) (dataHidden : Option V)
    (codec : Codec V) : Except JStr (VerifyResult V) :=
  let time := isExpired e.leewaySeconds now exp
  let r1 : VerifyResult V := vrTime time
  let signingParts : Option (List JStr) :=
    match dataHidden with
    | none => some [exp, format, dataShown]
    | some dh =>
      (codec.encode dh).map (fun encH => [exp, format, dataShown, b64uEncode encH])
  match signingParts with
  | none =>
    if e.errorOnEncoding then .error (strLit "hwt data encoding failed")
    else .ok { r1 with error := some (strLit "hwt data encoding failed") }
  | some parts =>
    match lookupKey e.keys kid with
    | none =>
      if protoTruthy kid then generateThrow e
      else
        if e.errorOnInvalid then .error (strLit "hwt unknown key")
        else .ok { r1 with error := some (strLit "hwt unknown key") }
    | some key =>
      let resign := (generate hmac e.signatureSize key (jsJoin '.' parts)).1
      if timingSafeEqual sig resign then
        match codec.decode (base64urlToUint8Array dataShown) with
        | some d => .ok { r1 with ok := true, data := some d }
        | none =>
          .ok { r1 with
                ok := false
                data := none
                error := some (strLit "hwt data decoding failed") }
      else
        if e.errorOnInvalid then .error (strLit "hwt invalid signature")
        else .ok { r1 with
                   ok := false
                   error := some (strLit "hwt invalid signature") }

/-- The tail of `verify` after the structural split, operating on the six
extracted fields (the prefix field is not used past the split).  The
codec check is `if (!Hwtr.#codecs[format || this.format])`: a registered
codec is used; an own falsy entry and an unregistered name fail with
`hwt unknown encoding` — unless the unregistered name is inherited from
`Object.prototype`, in which case the truthy inherited value passes the
check and verification proceeds with it (`protoCodec`). -/
def verifyParts {V : Type} (hmac : HKey → JStr → List Nat) (e : Engine V)
    (now : Int) (sig kid exp format dataShown : JStr) (dataHidden : Option V) :
    Except JStr (VerifyResult V) :=
  let time := isExpired e.leewaySeconds now exp
  let r1 : VerifyResult V := vrTime time
  if time.validTime = false then
    if e.errorOnExpired then .error (strLit "hwt expired")
    else .ok { r1 with error := some (strLit "hwt expired") }
  else
    match lookupSlot e.registry (verifyFormatName e.format format) with
    | some (some codec) =>
      verifyWithCodec hmac e now sig kid exp format dataShown dataHidden codec
    | some none =>
      if e.errorOnEncoding then .error (unknownEncodingMsg format)
      else .ok { r1 with error := some (unknownEncodingMsg format) }
    | none =>
      if protoTruthy (verifyFormatName e.format format) then
        verifyWithCodec hmac e now sig kid exp format dataShown dataHidden protoCodec
      else
        if e.errorOnEncoding then .error (unknownEncodingMsg format)
        else .ok { r1 with error := some (unknownEncodingMsg format) }

/-- Model of `verify(payload, dataHidden)`.  A non-string `payload` cannot
arise in the model; `payload.indexOf(prefix) !== 0` is the prefix test,
the size test uses the configured maximum, the split must yield at least
six fields, and the remainder is `verifyParts`. -/
def verify {V : Type} (hmac : HKey → JStr → List Nat) (e : Engine V)
    (now : Int) (payload : JStr) (dataHidden : Option V) :
    Except JStr (VerifyResult V) :=
  if ¬ hwtPfx.isPrefixOf payload ∨ (payload.length : ℚ) > e.maxTokenSizeBytes then
    if e.errorOnInvalid then .error (strLit "hwt invalid")
    else .ok { error := some (strLit "hwt invalid") }
  else
    match jsSplit '.' payload with
    | _ :: sig :: kid :: exp :: format :: dataShown :: _ =>
      verifyParts hmac e now sig kid exp format dataShown dataHidden
    | _ =>
      if e.errorOnInvalid then .error (strLit "hwt invalid format")
      else .ok { error := some (strLit "hwt invalid format") }

/- ### Constructor model -/

/-- The options object accepted by the `Hwtr` constructor.  `Option`
fields distinguish "not supplied" (JS `undefined`, which triggers the
destructuring default) from a supplied value; numeric options use `JsArg`
so that NaN-producing inputs are representable. -/
structure HwtrOpts where
  signatureSize : Option ℚ := none
  expiresInSeconds : JsArg := .undef
  errors : Bool := false
  errorOnInvalid : Bool := false
  errorOnExpired : Bool := false
  errorOnGenerate : Bool := true
  errorOnEncoding : Option Bool := none
  leewaySeconds : JsArg := .undef
  maxTokenSizeBytes : JsArg := .undef
  format : JStr := strLit "j"
  hash : Option JStr := none

/-- The `#supports` table: hash name, minimum (collision-safe) and full
base64url signature lengths. -/
def supports : List (JStr × ℚ × ℚ) :=
  [(strLit "SHA-256", (22, 43)), (strLit "SHA-384", (32, 64)),
   (strLit "SHA-512", (43, 86))]

/-- Numeric value of a `JsArg` after a destructuring default. -/
def jsArgNum (a : JsArg) (dflt : ℚ) : Option ℚ :=
  match a with
  | .undef => some dflt
  | .nan => none
  | .num q => some q

/-- Model of the `Hwtr` constructor's option processing.  Key import is
asynchronous crypto and is abstracted: the engine's `#keys` object (one
entry per successfully imported key id plus the `current` alias) is
supplied directly. -/
def hwtrNew {V : Type} (registry : List (JStr × Option (Codec V)))
    (keys : List (JStr × HKey)) (opts : HwtrOpts) : Engine V :=
  let fmt :=
    match lookupSlot registry opts.format with
    | some (some _) => opts.format
    | _ => strLit "j"
  let hashEntry : JStr × ℚ × ℚ :=
    (match opts.hash with
     | some h => (supports.find? (fun p => p.1 == h)).getD
         (strLit "SHA-256", (22, 43))
     | none => (strLit "SHA-256", (22, 43)))
  let sigMin := hashEntry.2.1
  let sigMax := hashEntry.2.2
  let sigSize :=
    match opts.signatureSize with
    | none => 0
    | some q =>
      if q = 0 then 0
      else
        let s := jsNumeric (some q) 0 sigMin sigMax
        if s = sigMax then 0 else s
  { errorOnInvalid := opts.errors || opts.errorOnInvalid
    errorOnExpired := opts.errors || opts.errorOnExpired
    errorOnEncoding := if opts.errors then true else opts.errorOnEncoding.getD true
    errorOnGenerate := opts.errorOnGenerate
    expiresInSeconds := jsNumeric (jsArgNum opts.expiresInSeconds 60) 60 0 31557600
    leewaySeconds := jsNumeric (jsArgNum opts.leewaySeconds 1) 1 0 30
    maxTokenSizeBytes := jsNumeric (jsArgNum opts.maxTokenSizeBytes 2048) 2048 512 5120
    signatureSize := sigSize
    format := fmt
    registry := registry
    keys := keys }

/- ### The extended JSON codec `jx` (hwtr.formats.js, `codecJSONextended`) -/

/-- Plain JSON trees: the intermediate produced by `JSON.stringify` and
consumed by `JSON.parse`.  Numbers are rationals (every JS double is a
rational, and a double survives the JSON text round trip exactly; the
text serialization step of the platform serializer is therefore modeled
as the identity on trees, likewise string escaping). -/
inductive JTree where
  | null
  | bool (b : Bool)
  | num (q : ℚ)
  | str (s : List Char)
  | arr (elems : List JTree)
  | obj (fields : List (List Char × JTree))

/-- JS values in the `jx` codec's declared universe: JSON primitives plus
`Date`, `BigInt`, `Set`, `Map`, the fixed-width typed arrays and
`ArrayBuffer`, nested arbitrarily.  A `date` carries its integer
millisecond time value.  `typed code elems` is a typed array whose
constructor index `code` is 0-9 (`Int8Array` … `Float64Array`, numeric
elements); `bigTyped` covers indexes 10 and 11 (`BigInt64Array`,
`BigUint64Array`), whose elements spread as BigInts. -/
inductive JVal where
  | null
  | bool (b : Bool)
  | num (q : ℚ)
  | str (s : List Char)
  | arr (elems : List JVal)
  | obj (fields : List (List Char × JVal))
  | date (ms : Int)
  | bigint (i : Int)
  | set (elems : List JVal)
  | map (entries : List (JVal × JVal))
  | typed (code : Nat) (elems : List ℚ)
  | bigTyped (code : Nat) (elems : List Int)
  | buf (bytes : List Nat)

mutual

/-- Model of `codecJSONextended.encode` at tree level: `JSON.stringify`
with the patched `toJSON` hooks (`jsonDate`, `jsonBigInt`, `jsonSet`,
`jsonMap`, `jsonTypedArray`, `jsonArrayBuffer`), each special type
re-expressed as a tagged array `[-7, discriminator, ...]`.  For a genuine
typed array `TYPED_ARRAY_CODES[this.constructor.name]` is its constructor
index, so `typeCode` is the stored code. -/
def jxEnc : JVal → JTree
  | .null => .null
  | .bool b => .bool b
  | .num q => .num q
  | .str s => .str s
  | .arr l => .arr (jxEncList l)
  | .obj fs => .obj (jxEncObj fs)
  | .date ms => .arr [.num (-7), .num 1, .num (ms : ℚ)]
  | .bigint i => .arr [.num (-7), .num 2, .str (intStr i)]
  | .set l => .arr [.num (-7), .num 3, .arr (jxEncList l)]
  | .map es => .arr [.num (-7), .num 4, .arr (jxEncEntries es)]
  | .typed code l => .arr [.num (-7), .num 7, .num (code : ℚ), .arr (l.map JTree.num)]
  | .bigTyped code l =>
    .arr [.num (-7), .num 7, .num (code : ℚ),
      .arr (l.map (fun i => JTree.arr [.num (-7), .num 2, .str (intStr i)]))]
  | .buf bytes => .arr [.num (-7), .num 8, .arr (bytes.map (fun (b : Nat) => JTree.num (b : ℚ)))]

def jxEncList : List JVal → List JTree
  | [] => []
  | v :: vs => jxEnc v :: jxEncList vs

def jxEncObj : List (List Char × JVal) → List (List Char × JTree)
  | [] => []
  | (k, v) :: fs => (k, jxEnc v) :: jxEncObj fs

def jxEncEntries : List (JVal × JVal) → List JTree
  | [] => []
  | (k, v) :: es => JTree.arr [jxEnc k, jxEnc v] :: jxEncEntries es

end

/- Decoding: `JSON.parse(json, this._fromJSON)` revives bottom-up; the
helpers below model the reconstruction `_fromJSON` performs on an array
whose children are already revived. -/

/-- Two's-complement style wrap performed by the integer typed-array
constructors: truncate toward zero, reduce modulo `2^width`, and re-center
when signed. -/
def toIntN (width : Nat) (signed : Bool) (q : ℚ) : Int :=
  if signed ∧ (2 : Int) ^ (width - 1) ≤ jsTrunc q % 2 ^ width
  then jsTrunc q % 2 ^ width - 2 ^ width
  else jsTrunc q % 2 ^ width

/-- Round half to even (the `Uint8ClampedArray` rounding mode). -/
def roundHalfEven (q : ℚ) : Int :=
  if q - ⌊q⌋ < 1/2 then ⌊q⌋
  else if 1/2 < q - ⌊q⌋ then ⌊q⌋ + 1
  else if Even ⌊q⌋ then ⌊q⌋ else ⌊q⌋ + 1

/-- `Uint8ClampedArray` element conversion: clamp into `[0, 255]` with
half-to-even rounding. -/
def clampByte (q : ℚ) : ℚ :=
  if q ≤ 0 then 0 else if 255 ≤ q then 255 else (roundHalfEven q : ℚ)

/-- Per-element conversion `new Ctor(list)` applies for the numeric
constructor indexes 0-9.  Integer codes truncate and wrap; the clamped
code clamps; the float codes are modeled as the identity (a value spread
out of a float array is exactly representable at its width, and
reconstruction from such values is exact — sub-width rounding for other
inputs is not modeled). -/
def coerceElem (code : Nat) (q : ℚ) : ℚ :=
  match code with
  | 0 => (toIntN 8 true q : ℚ)
  | 1 => (toIntN 8 false q : ℚ)
  | 2 => clampByte q
  | 3 => (toIntN 16 true q : ℚ)
  | 4 => (toIntN 16 false q : ℚ)
  | 6 => (toIntN 32 true q : ℚ)
  | 7 => (toIntN 32 false q : ℚ)
  | _ => q

/-- Element conversion for the BigInt constructor indexes 10 and 11. -/
def coerceBig (code : Nat) (i : Int) : Int :=
  toIntN 64 (code = 10) (i : ℚ)

/-- All elements are numbers (other element kinds would be coerced through
`ToNumber` by the constructors; unreachable from encoded trees and not
modeled). -/
def allNums : List JVal → Option (List ℚ)
  | [] => some []
  | .num q :: r => (allNums r).map (fun qs => q :: qs)
  | _ => none

/-- All elements are BigInts (`BigInt64Array`/`BigUint64Array` constructors
throw a `TypeError` on anything else). -/
def allBigints : List JVal → Option (List Int)
  | [] => some []
  | .bigint i :: r => (allBigints r).map (fun is => i :: is)
  | _ => none

/-- Map entries: each must be an array with at least a key and a value
(`new Map` reads `entry[0]` and `entry[1]`; shorter or non-object entries
are unreachable from encoded trees and map to failure). -/
def entriesOf : List JVal → Option (List (JVal × JVal))
  | [] => some []
  | .arr (k :: v :: _) :: es => (entriesOf es).map (fun r => (k, v) :: r)
  | _ => none

/-- `new Ctor(m)` for a typed-array constructor index: a missing argument
gives an empty array, a numeric argument a zero-filled array of that
length (negative lengths throw), an array argument converts per element;
other argument kinds (strings and other iterables) are not modeled. -/
def typedFromArg (code : Nat) : Option JVal → Option JVal
  | none =>
    if code = 10 ∨ code = 11 then some (.bigTyped code []) else some (.typed code [])
  | some (.num q) =>
    if jsTrunc q < 0 then none
    else if code = 10 ∨ code = 11 then
      some (.bigTyped code (List.replicate (jsTrunc q).toNat 0))
    else some (.typed code (List.replicate (jsTrunc q).toNat 0))
  | some (.arr ml) =>
    if code = 10 ∨ code = 11 then
      (allBigints ml).map (fun is => .bigTyped code (is.map (coerceBig code)))
    else
      (allNums ml).map (fun qs => .typed code (qs.map (coerceElem code)))
  | some _ => none

/-- The constructor index `_fromJSON` resolves for the third element of a
type-7 tag: `TypedArrayConstructors[n] ?? globalThis[n] ?? Uint8Array`.
`globalThis[n]` is modeled as absent, so any `n` outside `0..11` (or any
non-integer `n`) falls back to `Uint8Array` (index 1). -/
def effTypedCode (n : JVal) : Nat :=
  match n with
  | .num qc => if qc.den = 1 ∧ 0 ≤ qc.num ∧ qc.num < 12 then qc.num.toNat else 1
  | _ => 1

/-- Model of `_fromJSON(key, value)` on an array `value` whose children
are already revived: if `value[0] === -7` and `value[1]` is a known
discriminator, reconstruct the tagged type; otherwise return the array
unchanged. -/
def revive (l : List JVal) : Option JVal :=
  match l with
  | .num a :: rest =>
    if a = -7 then
      match rest with
      | .num t :: args =>
        if t = 1 then
          -- new Date(n); a non-numeric n would build an Invalid Date or
          -- parse a date string (unreachable from encoded trees)
          match args with
          | .num q :: _ => some (.date (jsTrunc q))
          | _ => none
        else if t = 2 then
          -- BigInt(n)
          match args with
          | .str s :: _ => (parseBigInt s).map JVal.bigint
          | .num q :: _ => if q.den = 1 then some (.bigint q.num) else none
          | _ => none
        else if t = 3 then
          -- new Set(n); other iterables than arrays are not modeled
          match args with
          | .arr el :: _ => some (.set el)
          | _ => none
        else if t = 4 then
          -- new Map(n)
          match args with
          | .arr el :: _ => (entriesOf el).map JVal.map
          | _ => none
        else if t = 7 then
          -- new (TypedArrayConstructors[n] ?? globalThis[n] ?? Uint8Array)(m)
          match args with
          | [] => typedFromArg 1 none
          | n :: margs => typedFromArg (effTypedCode n) margs.head?
        else if t = 8 then
          -- new ArrayBuffer(n.length) + Uint8Array view.set(n)
          match args with
          | .arr el :: _ =>
            (allNums el).map (fun qs => .buf (qs.map (fun q => (toIntN 8 false q).toNat)))
          | _ => none
        else some (.arr l)
      | _ => some (.arr l)
    else some (.arr l)
  | _ => some (.arr l)

mutual

/-- Model of `codecJSONextended.decode` at tree level: `JSON.parse` with
the `_fromJSON` reviver, which walks bottom-up and rewrites tagged
arrays.  `none` models a thrown error. -/
def jxDec : JTree → Option JVal
  | .null => some .null
  | .bool b => some (.bool b)
  | .num q => some (.num q)
  | .str s => some (.str s)
  | .arr l => do
    let l2 ← jxDecList l
    revive l2
  | .obj fs => do
    let fs2 ← jxDecObj fs
    pure (.obj fs2)

def jxDecList : List JTree → Option (List JVal)
  | [] => some []
  | t :: ts => do
    let v ← jxDec t
    let vs ← jxDecList ts
    pure (v :: vs)

def jxDecObj : List (List Char × JTree) → Option (List (List Char × JVal))
  | [] => some []
  | (k, t) :: fs => do
    let v ← jxDec t
    let vs ← jxDecObj fs
    pure ((k, v) :: vs)

end

/-- Known discriminators of the tagged encoding. -/
def isDisc (q : ℚ) : Bool :=
  q == 1 || q == 2 || q == 3 || q == 4 || q == 7 || q == 8

/-- A value list that would be mistaken for a tagged encoding by the
reviver: first element the sentinel `-7`, second a known discriminator. -/
def sentinelShaped (l : List JVal) : Bool :=
  match l with
  | .num a :: .num b :: _ => a == -7 && isDisc b
  | _ => false

/-- Same shape test for a numeric element list. -/
def sentinelShapedQ (l : List ℚ) : Bool :=
  match l with
  | a :: b :: _ => a == -7 && isDisc b
  | _ => false

/-- A Map entry that, once encoded as the pair array `[k, v]`, would be
mistaken for a tagged encoding. -/
def sentinelPair (k v : JVal) : Bool :=
  match k, v with
  | .num a, .num b => a == -7 && isDisc b
  | _, _ => false

mutual

/-- Sentinel-safety: no user array (or collection element list, or Map
entry pair) collides with the tagged encoding.  The source documents this
collision as an accepted format ambiguity. -/
def safeB : JVal → Bool
  | .null => true
  | .bool _ => true
  | .num _ => true
  | .str _ => true
  | .arr l => !sentinelShaped l && safeList l
  | .obj fs => safeObj fs
  | .date _ => true
  | .bigint _ => true
  | .set l => !sentinelShaped l && safeList l
  | .map es => safeEntries es
  | .typed _ l => !sentinelShapedQ l
  | .bigTyped _ _ => true
  | .buf _ => true

def safeList : List JVal → Bool
  | [] => true
  | v :: vs => safeB v && safeList vs

def safeObj : List (List Char × JVal) → Bool
  | [] => true
  | (_, v) :: fs => safeB v && safeObj fs

def safeEntries : List (JVal × JVal) → Bool
  | [] => true
  | (k, v) :: es => !sentinelPair k v && safeB k && safeB v && safeEntries es

end

/-- `q` is an integer in `[lo, hi)`. -/
def qIntRange (q : ℚ) (lo hi : Int) : Bool :=
  q.den == 1 && decide (lo ≤ q.num) && decide (q.num < hi)

/-- Element well-formedness per numeric constructor index: what a real
typed array of that type can store.  Float codes (5, 8, 9) are
unconstrained (width representability is not modeled; their conversion is
the identity). -/
def elemWf (code : Nat) (q : ℚ) : Bool :=
  match code with
  | 0 => qIntRange q (-128) 128
  | 1 => qIntRange q 0 256
  | 2 => qIntRange q 0 256
  | 3 => qIntRange q (-32768) 32768
  | 4 => qIntRange q 0 65536
  | 6 => qIntRange q (-2147483648) 2147483648
  | 7 => qIntRange q 0 4294967296
  | _ => true

mutual

/-- Well-formedness: the value is one a real JS program could hold —
typed-array codes in range with elements their type can store, byte
buffers holding bytes. -/
def wfB : JVal → Bool
  | .null => true
  | .bool _ => true
  | .num _ => true
  | .str _ => true
  | .arr l => wfList l
  | .obj fs => wfObj fs
  | .date _ => true
  | .bigint _ => true
  | .set l => wfList l
  | .map es => wfEntries es
  | .typed code l => decide (code < 10) && l.all (elemWf code)
  | .bigTyped code l =>
    (code == 10 && l.all (fun i => decide (-(2 ^ 63) ≤ i) && decide (i < 2 ^ 63))) ||
    (code == 11 && l.all (fun i => decide (0 ≤ i) && decide (i < 2 ^ 64)))
  | .buf bytes => bytes.all (fun b => decide (b < 256))

def wfList : List JVal → Bool
  | [] => true
  | v :: vs => wfB v && wfList vs

def wfObj : List (List Char × JVal) → Bool
  | [] => true
  | (_, v) :: fs => wfB v && wfObj fs

def wfEntries : List (JVal × JVal) → Bool
  | [] => true
  | (k, v) :: es => wfB k && wfB v && wfEntries es

end

/- ### Round-trip lemmas for the `jx` codec -/

theorem parseBigInt_natStr (n : Nat) : parseBigInt (natStr n) = some (n : Int) := by
  rcases hs : natStr n with _ | ⟨c, t⟩
  · exact absurd hs (natStr_ne_nil n)
  · have hcd : isDigit c = true := natStr_all_digits n c (hs ▸ List.mem_cons_self c t)
    have hc : c ≠ '-' := isDigit_ne_dash hcd
    unfold parseBigInt
    split
    · next heq =>
      exfalso
      rw [List.cons.injEq] at heq
      exact hc heq.1
    · rw [← hs, if_pos (List.all_eq_true.2 (natStr_all_digits n)), digitsVal_natStr]

theorem parseBigInt_intStr (i : Int) : parseBigInt (intStr i) = some i := by
  by_cases hneg : i < 0
  · rw [intStr, if_pos hneg]
    rw [show parseBigInt ('-' :: natStr (-i).toNat) =
        (if natStr (-i).toNat ≠ [] ∧ (natStr (-i).toNat).all isDigit then
          some (-(digitsVal (natStr (-i).toNat) : Int)) else none) from rfl]
    rw [if_pos ⟨natStr_ne_nil _, List.all_eq_true.2 (natStr_all_digits _)⟩,
      digitsVal_natStr]
    congr 1
    omega
  · rw [intStr, if_neg hneg, parseBigInt_natStr]
    congr 1
    omega

theorem jsTrunc_den_one (q : ℚ) (h : q.den = 1) : jsTrunc q = q.num := by
  rw [← (Rat.den_eq_one_iff q).1 h, jsTrunc_intCast, Rat.num_intCast]

/-- The wrap is the identity on in-range integers.  `P` and `Q` stand for
`2 ^ (width - 1)` and `2 ^ width`, supplied as equations so the power
computations happen at the call site. -/
theorem toIntN_eq {width : Nat} {signed : Bool} {i P Q : Int}
    (hQ : (2 : Int) ^ width = Q) (hP : (2 : Int) ^ (width - 1) = P)
    (hQP : Q = 2 * P) (hPpos : 0 < P)
    (hlo : if signed then -P ≤ i else 0 ≤ i)
    (hhi : if signed then i < P else i < Q) :
    toIntN width signed (i : ℚ) = i := by
  unfold toIntN
  rw [jsTrunc_intCast, hQ, hP]
  cases signed with
  | false =>
    simp at hlo hhi
    rw [if_neg (by simp)]
    exact Int.emod_eq_of_lt hlo hhi
  | true =>
    simp at hlo hhi
    by_cases hn : 0 ≤ i
    · rw [Int.emod_eq_of_lt hn (by linarith)]
      rw [if_neg (by simp only [true_and, not_le]; exact hhi)]
    · have hmod : i % Q = i + Q := by
        have h1 : i % Q = (i + Q * 1) % Q := (Int.add_mul_emod_self_left i Q 1).symm
        rw [h1, mul_one]
        exact Int.emod_eq_of_lt (by linarith) (by linarith)
      rw [hmod, if_pos ⟨rfl, by linarith⟩]
      ring

theorem qIntRange_exists {q : ℚ} {lo hi : Int} (h : qIntRange q lo hi = true) :
    ∃ i : Int, q = (i : ℚ) ∧ lo ≤ i ∧ i < hi := by
  simp only [qIntRange, Bool.and_eq_true, beq_iff_eq, decide_eq_true_eq] at h
  exact ⟨q.num, ((Rat.den_eq_one_iff q).1 h.1.1).symm, h.1.2, h.2⟩

theorem coerceElem_wf (code : Nat) (q : ℚ)
    (h : elemWf code q = true) : coerceElem code q = q := by
  match code with
  | 0 =>
    obtain ⟨i, rfl, hlo, hhi⟩ := qIntRange_exists (show qIntRange q (-128) 128 = true from h)
    show ((toIntN 8 true ((i : ℚ)) : Int) : ℚ) = (i : ℚ)
    rw [toIntN_eq (show (2 : Int) ^ 8 = 256 by norm_num)
      (show (2 : Int) ^ (8 - 1) = 128 by norm_num) (by norm_num) (by norm_num)
      (by simpa using hlo) (by simpa using hhi)]
  | 1 =>
    obtain ⟨i, rfl, hlo, hhi⟩ := qIntRange_exists (show qIntRange q 0 256 = true from h)
    show ((toIntN 8 false ((i : ℚ)) : Int) : ℚ) = (i : ℚ)
    rw [toIntN_eq (show (2 : Int) ^ 8 = 256 by norm_num)
      (show (2 : Int) ^ (8 - 1) = 128 by norm_num) (by norm_num) (by norm_num)
      (by simpa using hlo) (by simpa using hhi)]
  | 2 =>
    obtain ⟨i, rfl, hlo, hhi⟩ := qIntRange_exists (show qIntRange q 0 256 = true from h)
    show clampByte (i : ℚ) = (i : ℚ)
    unfold clampByte
    by_cases h0 : (i : ℚ) ≤ 0
    · have : i = 0 := by exact_mod_cast le_antisymm (by exact_mod_cast h0) hlo
      subst this
      rw [if_pos h0]
      norm_num
    · rw [if_neg h0]
      by_cases h255 : (255 : ℚ) ≤ (i : ℚ)
      · have : i = 255 := by
          have : (255 : Int) ≤ i := by exact_mod_cast h255
          omega
        subst this
        rw [if_pos h255]
        norm_num
      · rw [if_neg h255]
        unfold roundHalfEven
        rw [Int.floor_intCast]
        rw [if_pos (by norm_num)]
  | 3 =>
    obtain ⟨i, rfl, hlo, hhi⟩ := qIntRange_exists
      (show qIntRange q (-32768) 32768 = true from h)
    show ((toIntN 16 true ((i : ℚ)) : Int) : ℚ) = (i : ℚ)
    rw [toIntN_eq (show (2 : Int) ^ 16 = 65536 by norm_num)
      (show (2 : Int) ^ (16 - 1) = 32768 by norm_num) (by norm_num) (by norm_num)
      (by simpa using hlo) (by simpa using hhi)]
  | 4 =>
    obtain ⟨i, rfl, hlo, hhi⟩ := qIntRange_exists (show qIntRange q 0 65536 = true from h)
    show ((toIntN 16 false ((i : ℚ)) : Int) : ℚ) = (i : ℚ)
    rw [toIntN_eq (show (2 : Int) ^ 16 = 65536 by norm_num)
      (show (2 : Int) ^ (16 - 1) = 32768 by norm_num) (by norm_num) (by norm_num)
      (by simpa using hlo) (by simpa using hhi)]
  | 5 => rfl
  | 6 =>
    obtain ⟨i, rfl, hlo, hhi⟩ := qIntRange_exists
      (show qIntRange q (-2147483648) 2147483648 = true from h)
    show ((toIntN 32 true ((i : ℚ)) : Int) : ℚ) = (i : ℚ)
    rw [toIntN_eq (show (2 : Int) ^ 32 = 4294967296 by norm_num)
      (show (2 : Int) ^ (32 - 1) = 2147483648 by norm_num) (by norm_num) (by norm_num)
      (by simpa using hlo) (by simpa using hhi)]
  | 7 =>
    obtain ⟨i, rfl, hlo, hhi⟩ := qIntRange_exists
      (show qIntRange q 0 4294967296 = true from h)
    show ((toIntN 32 false ((i : ℚ)) : Int) : ℚ) = (i : ℚ)
    rw [toIntN_eq (show (2 : Int) ^ 32 = 4294967296 by norm_num)
      (show (2 : Int) ^ (32 - 1) = 2147483648 by norm_num) (by norm_num) (by norm_num)
      (by simpa using hlo) (by simpa using hhi)]
  | 8 => rfl
  | 9 => rfl
  | (n + 10) => rfl

theorem coerceBig_wf (code : Nat) (i : Int)
    (h : if code = 10 then -(2 ^ 63) ≤ i ∧ i < 2 ^ 63 else 0 ≤ i ∧ i < 2 ^ 64) :
    coerceBig code i = i := by
  unfold coerceBig
  by_cases hc : code = 10
  · rw [if_pos hc] at h
    subst hc
    rw [show (decide (10 = 10)) = true by decide]
    exact toIntN_eq (show (2 : Int) ^ 64 = 18446744073709551616 by norm_num)
      (show (2 : Int) ^ (64 - 1) = 9223372036854775808 by norm_num) (by norm_num)
      (by norm_num) (by simp; omega) (by simp; omega)
  · rw [if_neg hc] at h
    rw [show (decide (code = 10)) = false by simp [hc]]
    exact toIntN_eq (show (2 : Int) ^ 64 = 18446744073709551616 by norm_num)
      (show (2 : Int) ^ (64 - 1) = 9223372036854775808 by norm_num) (by norm_num)
      (by norm_num) (by simp; omega) (by simp; omega)

theorem allNums_map_num (l : List ℚ) : allNums (l.map JVal.num) = some l := by
  induction l with
  | nil => rfl
  | cons q qs ih => simp [allNums, ih]

theorem allBigints_map (l : List Int) :
    allBigints (l.map JVal.bigint) = some l := by
  induction l with
  | nil => rfl
  | cons i is ih => simp [allBigints, ih]

theorem entriesOf_pairs (es : List (JVal × JVal)) :
    entriesOf (es.map (fun p => JVal.arr [p.1, p.2])) = some es := by
  induction es with
  | nil => rfl
  | cons p ps ih =>
    obtain ⟨k, v⟩ := p
    simp [entriesOf, ih]

/-- The reviver leaves an array alone unless it is sentinel-shaped. -/
theorem revive_not_tagged (l : List JVal) (h : sentinelShaped l = false) :
    revive l = some (.arr l) := by
  match l with
  | [] => rfl
  | .null :: r => rfl
  | .bool _ :: r => rfl
  | .str _ :: r => rfl
  | .arr _ :: r => rfl
  | .obj _ :: r => rfl
  | .date _ :: r => rfl
  | .bigint _ :: r => rfl
  | .set _ :: r => rfl
  | .map _ :: r => rfl
  | .typed _ _ :: r => rfl
  | .bigTyped _ _ :: r => rfl
  | .buf _ :: r => rfl
  | .num a :: rest =>
    show (if a = -7 then _ else some (JVal.arr (.num a :: rest))) = _
    by_cases ha : a = -7
    · subst ha
      rw [if_pos rfl]
      match rest with
      | [] => rfl
      | .null :: r2 => rfl
      | .bool _ :: r2 => rfl
      | .str _ :: r2 => rfl
      | .arr _ :: r2 => rfl
      | .obj _ :: r2 => rfl
      | .date _ :: r2 => rfl
      | .bigint _ :: r2 => rfl
      | .set _ :: r2 => rfl
      | .map _ :: r2 => rfl
      | .typed _ _ :: r2 => rfl
      | .bigTyped _ _ :: r2 => rfl
      | .buf _ :: r2 => rfl
      | .num t :: args =>
        have hd : isDisc t = false := by
          simpa [sentinelShaped] using h
        have h1 : t ≠ 1 := by intro hh; subst hh; simp [isDisc] at hd
        have h2 : t ≠ 2 := by intro hh; subst hh; simp [isDisc] at hd
        have h3 : t ≠ 3 := by intro hh; subst hh; simp [isDisc] at hd
        have h4 : t ≠ 4 := by intro hh; subst hh; simp [isDisc] at hd
        have h7 : t ≠ 7 := by intro hh; subst hh; simp [isDisc] at hd
        have h8 : t ≠ 8 := by intro hh; subst hh; simp [isDisc] at hd
        show (if t = 1 then _ else _) = _
        rw [if_neg h1, if_neg h2, if_neg h3, if_neg h4, if_neg h7, if_neg h8]
    · rw [if_neg ha]

theorem jxDec_num_map {α : Type} (f : α → ℚ) (l : List α) :
    jxDecList (l.map (fun a => JTree.num (f a))) =
      some (l.map (fun a => JVal.num (f a))) := by
  induction l with
  | nil => rfl
  | cons a as ih => simp [jxDecList, jxDec, ih]

theorem allNums_gen {α : Type} (f : α → ℚ) (l : List α) :
    allNums (l.map (fun a => JVal.num (f a))) = some (l.map f) := by
  induction l with
  | nil => rfl
  | cons a as ih => simp [allNums, ih]

theorem jxDec_map_num_q (l : List ℚ) :
    jxDecList (l.map JTree.num) = some (l.map JVal.num) := by
  induction l with
  | nil => rfl
  | cons a as ih => simp [jxDecList, jxDec, ih]

theorem allNums_map_q (l : List ℚ) : allNums (l.map JVal.num) = some l := by
  induction l with
  | nil => rfl
  | cons a as ih => simp [allNums, ih]

theorem jxDec_map_num_natCast (bytes : List Nat) :
    jxDecList (bytes.map (fun (b : Nat) => JTree.num (b : ℚ))) =
      some (bytes.map (fun (b : Nat) => JVal.num (b : ℚ))) := by
  induction bytes with
  | nil => rfl
  | cons a as ih => simp [jxDecList, jxDec, ih]

theorem allNums_map_natCast (bytes : List Nat) :
    allNums (bytes.map (fun (b : Nat) => JVal.num (b : ℚ))) =
      some (bytes.map (fun (b : Nat) => (b : ℚ))) := by
  induction bytes with
  | nil => rfl
  | cons a as ih => simp [allNums, ih]

theorem sentinelShaped_pair (k v : JVal) :
    sentinelShaped [k, v] = sentinelPair k v := by
  cases k <;> cases v <;> rfl

theorem sentinelShaped_num_natCast (bytes : List Nat) :
    sentinelShaped (bytes.map (fun (b : Nat) => JVal.num (b : ℚ))) = false := by
  match bytes with
  | [] => rfl
  | [_] => rfl
  | a :: b :: r =>
    have : ((a : ℚ) == -7) = false := by
      simp only [beq_eq_false_iff_ne, ne_eq]
      intro hc
      have : (0 : ℚ) ≤ (a : ℚ) := by positivity
      rw [hc] at this
      norm_num at this
    simp [sentinelShaped, this]

theorem sentinelShaped_num_q (l : List ℚ) :
    sentinelShaped (l.map JVal.num) = sentinelShapedQ l := by
  match l with
  | [] => rfl
  | [_] => rfl
  | a :: b :: r => rfl

theorem sentinelShaped_bigint (l : List Int) :
    sentinelShaped (l.map JVal.bigint) = false := by
  match l with
  | [] => rfl
  | [_] => rfl
  | a :: b :: r => rfl

theorem sentinelShaped_pairs (es : List (JVal × JVal)) :
    sentinelShaped (es.map (fun p => JVal.arr [p.1, p.2])) = false := by
  match es with
  | [] => rfl
  | [_] => rfl
  | a :: b :: r => rfl

/-- Decoding a single tagged BigInt tree. -/
theorem jxDec_tagged_bigint (i : Int) :
    jxDec (JTree.arr [.num (-7), .num 2, .str (intStr i)]) = some (.bigint i) := by
  rw [show jxDec (JTree.arr [.num (-7), .num 2, .str (intStr i)]) =
    (parseBigInt (intStr i)).map JVal.bigint from rfl, parseBigInt_intStr]
  rfl

theorem jxDecList_tagged_bigints (l : List Int) :
    jxDecList (l.map (fun i => JTree.arr [.num (-7), .num 2, .str (intStr i)])) =
      some (l.map JVal.bigint) := by
  induction l with
  | nil => rfl
  | cons i is ih => simp [jxDecList, jxDec_tagged_bigint, ih]

mutual

/-- Round trip of the `jx` codec on sentinel-safe, well-formed values. -/
theorem jx_roundtrip (v : JVal) (hs : safeB v = true) (hw : wfB v = true) :
    jxDec (jxEnc v) = some v := by
  match v with
  | .null => rfl
  | .bool _ => rfl
  | .num _ => rfl
  | .str _ => rfl
  | .arr l =>
    have hss : (!sentinelShaped l && safeList l) = true := hs
    simp only [Bool.and_eq_true, Bool.not_eq_true'] at hss
    have hwl : wfList l = true := hw
    show Option.bind (jxDecList (jxEncList l)) (fun l2 => revive l2) = some (.arr l)
    rw [jx_roundtrip_list l hss.2 hwl, Option.some_bind]
    exact revive_not_tagged l hss.1
  | .obj fs =>
    have hso : safeObj fs = true := hs
    have hwo : wfObj fs = true := hw
    show Option.bind (jxDecObj (jxEncObj fs)) (fun fs2 => some (JVal.obj fs2)) =
      some (JVal.obj fs)
    rw [jx_roundtrip_obj fs hso hwo, Option.some_bind]
  | .date ms =>
    rw [show jxDec (jxEnc (JVal.date ms)) =
      some (JVal.date (jsTrunc ((ms : Int) : ℚ))) from rfl, jsTrunc_intCast]
  | .bigint i => exact jxDec_tagged_bigint i
  | .set l =>
    have hss : (!sentinelShaped l && safeList l) = true := hs
    simp only [Bool.and_eq_true, Bool.not_eq_true'] at hss
    have hwl : wfList l = true := hw
    have hinner : jxDec (JTree.arr (jxEncList l)) = some (JVal.arr l) := by
      show Option.bind (jxDecList (jxEncList l)) (fun l2 => revive l2) = _
      rw [jx_roundtrip_list l hss.2 hwl, Option.some_bind]
      exact revive_not_tagged l hss.1
    have hlist : jxDecList [JTree.num (-7), JTree.num 3, JTree.arr (jxEncList l)] =
        some [JVal.num (-7), JVal.num 3, JVal.arr l] := by
      show Option.bind
        (Option.bind
          (Option.bind (jxDec (JTree.arr (jxEncList l))) (fun v2 => some [v2]))
          (fun vs => some (JVal.num 3 :: vs)))
        (fun vs => some (JVal.num (-7) :: vs)) = _
      rw [hinner]
      rfl
    show Option.bind
      (jxDecList [JTree.num (-7), JTree.num 3, JTree.arr (jxEncList l)])
      (fun l2 => revive l2) = some (.set l)
    rw [hlist, Option.some_bind]
    rfl
  | .map es =>
    have hse : safeEntries es = true := hs
    have hwe : wfEntries es = true := hw
    have hinner : jxDec (JTree.arr (jxEncEntries es)) =
        some (JVal.arr (es.map (fun p => JVal.arr [p.1, p.2]))) := by
      show Option.bind (jxDecList (jxEncEntries es)) (fun l2 => revive l2) = _
      rw [jx_roundtrip_entries es hse hwe, Option.some_bind]
      exact revive_not_tagged _ (sentinelShaped_pairs es)
    have hlist : jxDecList [JTree.num (-7), JTree.num 4, JTree.arr (jxEncEntries es)] =
        some [JVal.num (-7), JVal.num 4,
          JVal.arr (es.map (fun p => JVal.arr [p.1, p.2]))] := by
      show Option.bind
        (Option.bind
          (Option.bind (jxDec (JTree.arr (jxEncEntries es))) (fun v2 => some [v2]))
          (fun vs => some (JVal.num 4 :: vs)))
        (fun vs => some (JVal.num (-7) :: vs)) = _
      rw [hinner]
      rfl
    show Option.bind
      (jxDecList [JTree.num (-7), JTree.num 4, JTree.arr (jxEncEntries es)])
      (fun l2 => revive l2) = some (.map es)
    rw [hlist, Option.some_bind]
    rw [show revive [JVal.num (-7), JVal.num 4,
        JVal.arr (es.map (fun p => JVal.arr [p.1, p.2]))] =
      (entriesOf (es.map (fun p => JVal.arr [p.1, p.2]))).map JVal.map from rfl]
    rw [entriesOf_pairs es]
    rfl
  | .typed code l =>
    have hns : sentinelShapedQ l = false := by
      have hss : (!sentinelShapedQ l) = true := hs
      simpa using hss
    have hcode : code < 10 ∧ l.all (elemWf code) = true := by
      have hww : (decide (code < 10) && l.all (elemWf code)) = true := hw
      simpa using hww
    have hinner : jxDec (JTree.arr (l.map JTree.num)) =
        some (JVal.arr (l.map JVal.num)) := by
      show Option.bind (jxDecList (l.map JTree.num)) (fun l2 => revive l2) = _
      rw [jxDec_map_num_q l, Option.some_bind]
      rw [revive_not_tagged _ (by rw [sentinelShaped_num_q]; exact hns)]
    have hlist : jxDecList [JTree.num (-7), JTree.num 7, JTree.num (code : ℚ),
        JTree.arr (l.map JTree.num)] =
        some [JVal.num (-7), JVal.num 7, JVal.num (code : ℚ),
          JVal.arr (l.map JVal.num)] := by
      show Option.bind
        (Option.bind
          (Option.bind
            (Option.bind (jxDec (JTree.arr (l.map JTree.num))) (fun v2 => some [v2]))
            (fun vs => some (JVal.num (code : ℚ) :: vs)))
          (fun vs => some (JVal.num 7 :: vs)))
        (fun vs => some (JVal.num (-7) :: vs)) = _
      rw [hinner]
      rfl
    show Option.bind
      (jxDecList [JTree.num (-7), JTree.num 7, JTree.num (code : ℚ),
        JTree.arr (l.map JTree.num)])
      (fun l2 => revive l2) = some (.typed code l)
    rw [hlist, Option.some_bind]
    rw [show revive [JVal.num (-7), JVal.num 7, JVal.num (code : ℚ),
        JVal.arr (l.map JVal.num)] =
      typedFromArg (effTypedCode (JVal.num (code : ℚ)))
        (some (JVal.arr (l.map JVal.num))) from rfl]
    have heff : effTypedCode (JVal.num (code : ℚ)) = code := by
      show (if ((code : ℚ)).den = 1 ∧ 0 ≤ ((code : ℚ)).num ∧ ((code : ℚ)).num < 12
        then ((code : ℚ)).num.toNat else 1) = code
      rw [if_pos ⟨Rat.den_natCast code,
        by rw [Rat.num_natCast]; omega,
        by rw [Rat.num_natCast]; exact_mod_cast (by omega : code < 12)⟩]
      rw [Rat.num_natCast]
      rfl
    rw [heff]
    rw [show typedFromArg code (some (JVal.arr (l.map JVal.num))) =
      (if code = 10 ∨ code = 11 then
        Option.map (fun is => JVal.bigTyped code (is.map (coerceBig code)))
          (allBigints (l.map JVal.num))
      else Option.map (fun qs => JVal.typed code (qs.map (coerceElem code)))
          (allNums (l.map JVal.num))) from rfl]
    rw [if_neg (by omega), allNums_map_q l]
    show some (JVal.typed code (l.map (coerceElem code))) = _
    have hall := hcode.2
    rw [List.all_eq_true] at hall
    have hmap : l.map (coerceElem code) = l := by
      calc l.map (coerceElem code) = l.map id := by
            apply List.map_congr_left
            intro q hq
            exact coerceElem_wf code q (hall q hq)
        _ = l := List.map_id l
    rw [hmap]
  | .bigTyped code l =>
    have hcw : (code = 10 ∧ ∀ i ∈ l, -(2 ^ 63) ≤ i ∧ i < 2 ^ 63) ∨
        (code = 11 ∧ ∀ i ∈ l, 0 ≤ i ∧ i < 2 ^ 64) := by
      have hw2 : ((code == 10 &&
          l.all (fun i => decide (-(2 ^ 63) ≤ i) && decide (i < 2 ^ 63))) ||
        (code == 11 && l.all (fun i => decide (0 ≤ i) && decide (i < 2 ^ 64)))) =
          true := hw
      simp only [Bool.or_eq_true, Bool.and_eq_true, beq_iff_eq,
        List.all_eq_true, decide_eq_true_eq] at hw2
      rcases hw2 with ⟨hc, hall⟩ | ⟨hc, hall⟩
      · exact Or.inl ⟨hc, fun i hi => hall i hi⟩
      · exact Or.inr ⟨hc, fun i hi => hall i hi⟩
    have hcode12 : code = 10 ∨ code = 11 := by
      rcases hcw with ⟨hc, _⟩ | ⟨hc, _⟩
      · exact Or.inl hc
      · exact Or.inr hc
    have hinner : jxDec (JTree.arr
        (l.map (fun i => JTree.arr [.num (-7), .num 2, .str (intStr i)]))) =
        some (JVal.arr (l.map JVal.bigint)) := by
      show Option.bind
        (jxDecList (l.map (fun i => JTree.arr [.num (-7), .num 2, .str (intStr i)])))
        (fun l2 => revive l2) = _
      rw [jxDecList_tagged_bigints l, Option.some_bind]
      exact revive_not_tagged _ (sentinelShaped_bigint l)
    have hlist : jxDecList [JTree.num (-7), JTree.num 7, JTree.num (code : ℚ),
        JTree.arr (l.map (fun i => JTree.arr [.num (-7), .num 2, .str (intStr i)]))] =
        some [JVal.num (-7), JVal.num 7, JVal.num (code : ℚ),
          JVal.arr (l.map JVal.bigint)] := by
      show Option.bind
        (Option.bind
          (Option.bind
            (Option.bind (jxDec (JTree.arr
              (l.map (fun i => JTree.arr [.num (-7), .num 2, .str (intStr i)]))))
              (fun v2 => some [v2]))
            (fun vs => some (JVal.num (code : ℚ) :: vs)))
          (fun vs => some (JVal.num 7 :: vs)))
        (fun vs => some (JVal.num (-7) :: vs)) = _
      rw [hinner]
      rfl
    show Option.bind
      (jxDecList [JTree.num (-7), JTree.num 7, JTree.num (code : ℚ),
        JTree.arr (l.map (fun i => JTree.arr [.num (-7), .num 2, .str (intStr i)]))])
      (fun l2 => revive l2) = some (.bigTyped code l)
    rw [hlist, Option.some_bind]
    rw [show revive [JVal.num (-7), JVal.num 7, JVal.num (code : ℚ),
        JVal.arr (l.map JVal.bigint)] =
      typedFromArg (effTypedCode (JVal.num (code : ℚ)))
        (some (JVal.arr (l.map JVal.bigint))) from rfl]
    have heff : effTypedCode (JVal.num (code : ℚ)) = code := by
      show (if ((code : ℚ)).den = 1 ∧ 0 ≤ ((code : ℚ)).num ∧ ((code : ℚ)).num < 12
        then ((code : ℚ)).num.toNat else 1) = code
      rw [if_pos ⟨Rat.den_natCast code,
        by rw [Rat.num_natCast]; omega,
        by rw [Rat.num_natCast]; exact_mod_cast (by omega : code < 12)⟩]
      rw [Rat.num_natCast]
      rfl
    rw [heff]
    rw [show typedFromArg code (some (JVal.arr (l.map JVal.bigint))) =
      (if code = 10 ∨ code = 11 then
        Option.map (fun is => JVal.bigTyped code (is.map (coerceBig code)))
          (allBigints (l.map JVal.bigint))
      else Option.map (fun qs => JVal.typed code (qs.map (coerceElem code)))
          (allNums (l.map JVal.bigint))) from rfl]
    rw [if_pos hcode12, allBigints_map l]
    show some (JVal.bigTyped code (l.map (coerceBig code))) = _
    have hmap : l.map (coerceBig code) = l := by
      calc l.map (coerceBig code) = l.map id := by
            apply List.map_congr_left
            intro i hi
            apply coerceBig_wf
            rcases hcw with ⟨hc, hall⟩ | ⟨hc, hall⟩
            · rw [if_pos hc]
              exact hall i hi
            · rw [if_neg (by omega)]
              exact hall i hi
        _ = l := List.map_id l
    rw [hmap]
  | .buf bytes =>
    have hb : ∀ b ∈ bytes, b < 256 := by
      have hww : bytes.all (fun b => decide (b < 256)) = true := hw
      simpa using hww
    have hinner : jxDec (JTree.arr (bytes.map (fun (b : Nat) => JTree.num (b : ℚ)))) =
        some (JVal.arr (bytes.map (fun (b : Nat) => JVal.num (b : ℚ)))) := by
      show Option.bind (jxDecList (bytes.map (fun (b : Nat) => JTree.num (b : ℚ))))
        (fun l2 => revive l2) = _
      rw [jxDec_map_num_natCast bytes, Option.some_bind]
      exact revive_not_tagged _ (sentinelShaped_num_natCast bytes)
    have hlist : jxDecList [JTree.num (-7), JTree.num 8,
        JTree.arr (bytes.map (fun (b : Nat) => JTree.num (b : ℚ)))] =
        some [JVal.num (-7), JVal.num 8,
          JVal.arr (bytes.map (fun (b : Nat) => JVal.num (b : ℚ)))] := by
      show Option.bind
        (Option.bind
          (Option.bind (jxDec (JTree.arr (bytes.map (fun (b : Nat) => JTree.num (b : ℚ)))))
            (fun v2 => some [v2]))
          (fun vs => some (JVal.num 8 :: vs)))
        (fun vs => some (JVal.num (-7) :: vs)) = _
      rw [hinner]
      rfl
    show Option.bind
      (jxDecList [JTree.num (-7), JTree.num 8,
        JTree.arr (bytes.map (fun (b : Nat) => JTree.num (b : ℚ)))])
      (fun l2 => revive l2) = some (.buf bytes)
    rw [hlist, Option.some_bind]
    rw [show revive [JVal.num (-7), JVal.num 8,
        JVal.arr (bytes.map (fun (b : Nat) => JVal.num (b : ℚ)))] =
      (allNums (bytes.map (fun (b : Nat) => JVal.num (b : ℚ)))).map
        (fun qs => JVal.buf (qs.map (fun q => (toIntN 8 false q).toNat))) from rfl]
    rw [allNums_map_natCast bytes]
    show some (JVal.buf ((bytes.map (fun (b : Nat) => (b : ℚ))).map
      (fun q => (toIntN 8 false q).toNat))) = _
    rw [List.map_map]
    have hmap : bytes.map ((fun q => (toIntN 8 false q).toNat) ∘ (fun (b : Nat) => (b : ℚ))) =
        bytes := by
      calc bytes.map ((fun q => (toIntN 8 false q).toNat) ∘ (fun (b : Nat) => (b : ℚ))) =
          bytes.map id := by
            apply List.map_congr_left
            intro b hbm
            show (toIntN 8 false ((b : Nat) : ℚ)).toNat = b
            have hcast : ((b : Nat) : ℚ) = (((b : Nat) : Int) : ℚ) := by push_cast; ring
            rw [hcast, toIntN_eq (show (2 : Int) ^ 8 = 256 by norm_num)
              (show (2 : Int) ^ (8 - 1) = 128 by norm_num) (by norm_num) (by norm_num)
              (by simp) (by simpa using (by exact_mod_cast hb b hbm : (b : Int) < 256))]
            omega
        _ = bytes := List.map_id bytes
    rw [hmap]

theorem jx_roundtrip_list (l : List JVal) (hs : safeList l = true)
    (hw : wfList l = true) : jxDecList (jxEncList l) = some l := by
  match l with
  | [] => rfl
  | v :: vs =>
    have hsv : safeB v = true ∧ safeList vs = true := by
      have hss : (safeB v && safeList vs) = true := hs
      simpa using hss
    have hwv : wfB v = true ∧ wfList vs = true := by
      have hww : (wfB v && wfList vs) = true := hw
      simpa using hww
    show Option.bind (jxDec (jxEnc v))
      (fun v2 => Option.bind (jxDecList (jxEncList vs))
        (fun vs2 => some (v2 :: vs2))) = some (v :: vs)
    rw [jx_roundtrip v hsv.1 hwv.1, Option.some_bind,
      jx_roundtrip_list vs hsv.2 hwv.2, Option.some_bind]

theorem jx_roundtrip_obj (fs : List (List Char × JVal)) (hs : safeObj fs = true)
    (hw : wfObj fs = true) : jxDecObj (jxEncObj fs) = some fs := by
  match fs with
  | [] => rfl
  | (k, v) :: rest =>
    have hsv : safeB v = true ∧ safeObj rest = true := by
      have hss : (safeB v && safeObj rest) = true := hs
      simpa using hss
    have hwv : wfB v = true ∧ wfObj rest = true := by
      have hww : (wfB v && wfObj rest) = true := hw
      simpa using hww
    show Option.bind (jxDec (jxEnc v))
      (fun v2 => Option.bind (jxDecObj (jxEncObj rest))
        (fun vs2 => some ((k, v2) :: vs2))) = some ((k, v) :: rest)
    rw [jx_roundtrip v hsv.1 hwv.1, Option.some_bind,
      jx_roundtrip_obj rest hsv.2 hwv.2, Option.some_bind]

theorem jx_roundtrip_entries (es : List (JVal × JVal)) (hs : safeEntries es = true)
    (hw : wfEntries es = true) :
    jxDecList (jxEncEntries es) =
      some (es.map (fun p => JVal.arr [p.1, p.2])) := by
  match es with
  | [] => rfl
  | (k, v) :: rest =>
    have hsv : sentinelPair k v = false ∧ safeB k = true ∧ safeB v = true ∧
        safeEntries rest = true := by
      have hss : (!sentinelPair k v && safeB k && safeB v && safeEntries rest) =
          true := hs
      simp only [Bool.and_eq_true, Bool.not_eq_true'] at hss
      exact ⟨hss.1.1.1, hss.1.1.2, hss.1.2, hss.2⟩
    have hwv : wfB k = true ∧ wfB v = true ∧ wfEntries rest = true := by
      have hww : (wfB k && wfB v && wfEntries rest) = true := hw
      simp only [Bool.and_eq_true] at hww
      exact ⟨hww.1.1, hww.1.2, hww.2⟩
    have hdk : jxDec (JTree.arr [jxEnc k, jxEnc v]) = some (JVal.arr [k, v]) := by
      show Option.bind (jxDecList [jxEnc k, jxEnc v]) (fun l2 => revive l2) = _
      rw [show jxDecList [jxEnc k, jxEnc v] =
          Option.bind (jxDec (jxEnc k))
            (fun a => Option.bind
              (Option.bind (jxDec (jxEnc v)) (fun b => some [b]))
              (fun bs => some (a :: bs))) from rfl]
      rw [jx_roundtrip k hsv.2.1 hwv.1, jx_roundtrip v hsv.2.2.1 hwv.2.1]
      simp only [Option.some_bind]
      exact revive_not_tagged _ (by rw [sentinelShaped_pair]; exact hsv.1)
    show Option.bind (jxDec (JTree.arr [jxEnc k, jxEnc v]))
      (fun v2 => Option.bind (jxDecList (jxEncEntries rest))
        (fun vs2 => some (v2 :: vs2))) = _
    rw [hdk, Option.some_bind, jx_roundtrip_entries rest hsv.2.2.2 hwv.2.2,
      Option.some_bind]
    rfl

end


/- ### Engine-level lemmas -/

theorem tse_self (s : JStr) : timingSafeEqual s s = true :=
  (timingSafeEqualInstr_eq _ _).2 rfl

theorem timingSafeEqual_b64 {a b : List Nat} (ha : ∀ x ∈ a, x < 256)
    (hb : ∀ x ∈ b, x < 256) :
    timingSafeEqual (b64uEncode a) (b64uEncode b) = true ↔ a = b := by
  unfold timingSafeEqual
  rw [b64u_roundtrip a ha, b64u_roundtrip b hb]
  exact timingSafeEqualInstr_eq a b

/-- With `signatureSize = 0` the full base64url HMAC is the signature. -/
theorem generate_zero (hmac : HKey → JStr → List Nat) (k : HKey) (t : JStr) :
    generate hmac 0 k t = (b64uEncode (hmac k t), k.id) := by
  simp [generate]

theorem jsNumToStr_natCast (T : Nat) : jsNumToStr ((T : ℚ)) = natStr T := by
  unfold jsNumToStr
  rw [if_pos (Rat.den_natCast T), Rat.num_natCast]
  unfold intStr
  rw [if_neg (by omega)]
  rfl

theorem isExpired_natStr_live (leeway : ℚ) (now : Int) (T : Nat)
    (h : now < (T : Int)) :
    isExpired leeway now (natStr T) =
      { expires := (T : ℚ), now := now, expired := false, validTime := true,
        withinLeeway := none } := by
  unfold isExpired
  rw [jsNumberOr0_natStr, if_neg (by rw [not_le]; exact_mod_cast h)]

theorem isExpired_natStr_expired (leeway : ℚ) (now : Int) (T : Nat)
    (h : (T : Int) ≤ now) :
    isExpired leeway now (natStr T) =
      { expires := (T : ℚ), now := now, expired := true,
        validTime := decide ((now : ℚ) - (T : ℚ) ≤ leeway),
        withinLeeway := some (decide ((now : ℚ) - (T : ℚ) ≤ leeway)) } := by
  unfold isExpired
  rw [jsNumberOr0_natStr, if_pos (by exact_mod_cast h)]

theorem isPrefixOf_append {l p rest : JStr} (h : l.isPrefixOf p = true) :
    l.isPrefixOf (p ++ rest) = true := by
  rw [List.isPrefixOf_iff_prefix] at h ⊢
  exact h.trans (List.prefix_append p rest)

/-- Parse lemma: `verify` on a six-field token whose fields are
separator-free reduces to `verifyParts` on those fields. -/
theorem verify_fields {V : Type} (hmac : HKey → JStr → List Nat) (e : Engine V)
    (now : Int) (p0 sig kid expS fmt d : JStr) (dh : Option V)
    (hpfx : hwtPfx.isPrefixOf p0 = true)
    (h0 : '.' ∉ p0) (h1 : '.' ∉ sig) (h2 : '.' ∉ kid) (h3 : '.' ∉ expS)
    (h4 : '.' ∉ fmt) (h5 : '.' ∉ d)
    (hlen : ¬((jsJoin '.' [p0, sig, kid, expS, fmt, d]).length : ℚ) >
      e.maxTokenSizeBytes) :
    verify hmac e now (jsJoin '.' [p0, sig, kid, expS, fmt, d]) dh =
      verifyParts hmac e now sig kid expS fmt d dh := by
  have hsplit : jsSplit '.' (jsJoin '.' [p0, sig, kid, expS, fmt, d]) =
      [p0, sig, kid, expS, fmt, d] := by
    apply jsSplit_jsJoin '.' _ (by simp)
    intro f hf
    simp only [List.mem_cons, List.not_mem_nil, or_false] at hf
    rcases hf with rfl | rfl | rfl | rfl | rfl | rfl <;> assumption
  have hpfx2 : hwtPfx.isPrefixOf (jsJoin '.' [p0, sig, kid, expS, fmt, d]) = true := by
    rw [show jsJoin '.' [p0, sig, kid, expS, fmt, d] =
      p0 ++ '.' :: jsJoin '.' [sig, kid, expS, fmt, d] from rfl]
    exact isPrefixOf_append hpfx
  unfold verify
  rw [if_neg (by push_neg; exact ⟨hpfx2, not_lt.1 hlen⟩)]
  rw [hsplit]

theorem verifyParts_main {V : Type} (hmac : HKey → JStr → List Nat) (e : Engine V)
    (now : Int) (sig kid expS fmt d : JStr) (dh : Option V) (codec : Codec V)
    (key : HKey) (parts : List JStr)
    (htime : (isExpired e.leewaySeconds now expS).validTime = true)
    (hcodec : lookupSlot e.registry (verifyFormatName e.format fmt) =
      some (some codec))
    (hkey : lookupKey e.keys kid = some key)
    (hparts : (match dh with
       | none => some [expS, fmt, d]
       | some hv => (codec.encode hv).map (fun encH => [expS, fmt, d, b64uEncode encH]))
         = some parts) :
    verifyParts hmac e now sig kid expS fmt d dh =
      (if timingSafeEqual sig
          ((generate hmac e.signatureSize key (jsJoin '.' parts)).1) then
        match codec.decode (base64urlToUint8Array d) with
        | some dd =>
          .ok { (vrTime (isExpired e.leewaySeconds now expS) : VerifyResult V) with
                ok := true
                data := some dd }
        | none =>
          .ok { (vrTime (isExpired e.leewaySeconds now expS) : VerifyResult V) with
                ok := false
                data := none
                error := some (strLit "hwt data decoding failed") }
      else
        if e.errorOnInvalid then .error (strLit "hwt invalid signature")
        else .ok { (vrTime (isExpired e.leewaySeconds now expS) : VerifyResult V) with
                   ok := false
                   error := some (strLit "hwt invalid signature") }) := by
  unfold verifyParts verifyWithCodec
  rw [if_neg (by rw [htime]; simp)]
  simp only [hcodec, hparts, hkey]

theorem verifyParts_unknown_codec {V : Type} (hmac : HKey → JStr → List Nat)
    (e : Engine V) (now : Int) (sig kid expS fmt d : JStr) (dh : Option V)
    (htime : (isExpired e.leewaySeconds now expS).validTime = true)
    (hslot : lookupSlot e.registry (verifyFormatName e.format fmt) = none ∨
      lookupSlot e.registry (verifyFormatName e.format fmt) = some none)
    (hpt : lookupSlot e.registry (verifyFormatName e.format fmt) = none →
      protoTruthy (verifyFormatName e.format fmt) = false) :
    verifyParts hmac e now sig kid expS fmt d dh =
      (if e.errorOnEncoding then .error (unknownEncodingMsg fmt)
       else .ok { (vrTime (isExpired e.leewaySeconds now expS) : VerifyResult V) with
                  error := some (unknownEncodingMsg fmt) }) := by
  unfold verifyParts
  rw [if_neg (by rw [htime]; simp)]
  rcases hslot with hslot | hslot
  · simp only [hslot]
    rw [if_neg (by simp [hpt hslot])]
  · simp only [hslot]

theorem verifyParts_unknown_key {V : Type} (hmac : HKey → JStr → List Nat)
    (e : Engine V) (now : Int) (sig kid expS fmt d : JStr) (dh : Option V)
    (codec : Codec V) (parts : List JStr)
    (htime : (isExpired e.leewaySeconds now expS).validTime = true)
    (hcodec : lookupSlot e.registry (verifyFormatName e.format fmt) =
      some (some codec))
    (hkey : lookupKey e.keys kid = none)
    (hpt : protoTruthy kid = false)
    (hparts : (match dh with
       | none => some [expS, fmt, d]
       | some hv => (codec.encode hv).map (fun encH => [expS, fmt, d, b64uEncode encH]))
         = some parts) :
    verifyParts hmac e now sig kid expS fmt d dh =
      (if e.errorOnInvalid then .error (strLit "hwt unknown key")
       else .ok { (vrTime (isExpired e.leewaySeconds now expS) : VerifyResult V) with
                  error := some (strLit "hwt unknown key") }) := by
  unfold verifyParts verifyWithCodec
  rw [if_neg (by rw [htime]; simp)]
  simp only [hcodec, hparts, hkey]
  rw [if_neg (by simp [hpt])]

theorem vrTime_ok {V : Type} (tc : TimeCheck) :
    (vrTime tc : VerifyResult V).ok = false := by
  unfold vrTime
  split <;> rfl

/-- Projection used to compare verification outcomes: the `ok` bit of a
returned result, `false` for a raised error. -/
def resultOkBit {V : Type} : Except JStr (VerifyResult V) → Bool
  | .ok r => r.ok
  | .error _ => false

/-- With valid time and a registered codec, `verifyParts` dispatches to
`verifyWithCodec` on that codec. -/
theorem verifyParts_codec {V : Type} (hmac : HKey → JStr → List Nat)
    (e : Engine V) (now : Int) (sig kid expS fmt d : JStr) (dh : Option V)
    (codec : Codec V)
    (htime : (isExpired e.leewaySeconds now expS).validTime = true)
    (hcodec : lookupSlot e.registry (verifyFormatName e.format fmt) =
      some (some codec)) :
    verifyParts hmac e now sig kid expS fmt d dh =
      verifyWithCodec hmac e now sig kid expS fmt d dh codec := by
  unfold verifyParts
  rw [if_neg (by rw [htime]; simp)]
  simp only [hcodec]

/-- With valid time and an unregistered name inherited from
`Object.prototype`, `verifyParts` proceeds with the truthy inherited
value — `protoCodec` — instead of failing with `hwt unknown encoding`. -/
theorem verifyParts_proto_codec {V : Type} (hmac : HKey → JStr → List Nat)
    (e : Engine V) (now : Int) (sig kid expS fmt d : JStr) (dh : Option V)
    (htime : (isExpired e.leewaySeconds now expS).validTime = true)
    (hslot : lookupSlot e.registry (verifyFormatName e.format fmt) = none)
    (hpt : protoTruthy (verifyFormatName e.format fmt) = true) :
    verifyParts hmac e now sig kid expS fmt d dh =
      verifyWithCodec hmac e now sig kid expS fmt d dh protoCodec := by
  unfold verifyParts
  rw [if_neg (by rw [htime]; simp)]
  simp only [hslot]
  rw [if_pos hpt]

theorem verifyWithCodec_enc_failed {V : Type} (hmac : HKey → JStr → List Nat)
    (e : Engine V) (now : Int) (sig kid expS fmt d : JStr) (dh : Option V)
    (codec : Codec V)
    (hsp : (match dh with
       | none => some [expS, fmt, d]
       | some hv => (codec.encode hv).map (fun encH => [expS, fmt, d, b64uEncode encH]))
         = (none : Option (List JStr))) :
    verifyWithCodec hmac e now sig kid expS fmt d dh codec =
      (if e.errorOnEncoding then .error (strLit "hwt data encoding failed")
       else .ok { (vrTime (isExpired e.leewaySeconds now expS) : VerifyResult V) with
                  error := some (strLit "hwt data encoding failed") }) := by
  unfold verifyWithCodec
  simp only [hsp]

theorem verifyWithCodec_unknown_key {V : Type} (hmac : HKey → JStr → List Nat)
    (e : Engine V) (now : Int) (sig kid expS fmt d : JStr) (dh : Option V)
    (codec : Codec V) (parts : List JStr)
    (hsp : (match dh with
       | none => some [expS, fmt, d]
       | some hv => (codec.encode hv).map (fun encH => [expS, fmt, d, b64uEncode encH]))
         = some parts)
    (hk : lookupKey e.keys kid = none)
    (hpt : protoTruthy kid = false) :
    verifyWithCodec hmac e now sig kid expS fmt d dh codec =
      (if e.errorOnInvalid then .error (strLit "hwt unknown key")
       else .ok { (vrTime (isExpired e.leewaySeconds now expS) : VerifyResult V) with
                  error := some (strLit "hwt unknown key") }) := by
  unfold verifyWithCodec
  simp only [hsp, hk]
  rw [if_neg (by simp [hpt])]

/-- A key-id field that misses every own `#keys` property but names an
`Object.prototype` property passes the `if (!key)` check; `generate`
then fails and the call raises, whatever the strict flags say. -/
theorem verifyWithCodec_proto_key {V : Type} (hmac : HKey → JStr → List Nat)
    (e : Engine V) (now : Int) (sig kid expS fmt d : JStr) (dh : Option V)
    (codec : Codec V) (parts : List JStr)
    (hsp : (match dh with
       | none => some [expS, fmt, d]
       | some hv => (codec.encode hv).map (fun encH => [expS, fmt, d, b64uEncode encH]))
         = some parts)
    (hk : lookupKey e.keys kid = none)
    (hpt : protoTruthy kid = true) :
    verifyWithCodec hmac e now sig kid expS fmt d dh codec = generateThrow e := by
  unfold verifyWithCodec
  simp only [hsp, hk]
  rw [if_pos hpt]

theorem verifyWithCodec_sig {V : Type} (hmac : HKey → JStr → List Nat)
    (e : Engine V) (now : Int) (sig kid expS fmt d : JStr) (dh : Option V)
    (codec : Codec V) (key : HKey) (parts : List JStr)
    (hsp : (match dh with
       | none => some [expS, fmt, d]
       | some hv => (codec.encode hv).map (fun encH => [expS, fmt, d, b64uEncode encH]))
         = some parts)
    (hk : lookupKey e.keys kid = some key) :
    verifyWithCodec hmac e now sig kid expS fmt d dh codec =
      (if timingSafeEqual sig
          ((generate hmac e.signatureSize key (jsJoin '.' parts)).1) then
        match codec.decode (base64urlToUint8Array d) with
        | some dd =>
          .ok { (vrTime (isExpired e.leewaySeconds now expS) : VerifyResult V) with
                ok := true
                data := some dd }
        | none =>
          .ok { (vrTime (isExpired e.leewaySeconds now expS) : VerifyResult V) with
                ok := false
                data := none
                error := some (strLit "hwt data decoding failed") }
      else
        if e.errorOnInvalid then .error (strLit "hwt invalid signature")
        else .ok { (vrTime (isExpired e.leewaySeconds now expS) : VerifyResult V) with
                   ok := false
                   error := some (strLit "hwt invalid signature") }) := by
  unfold verifyWithCodec
  simp only [hsp, hk]

theorem verifyFormatName_self (f : JStr) : verifyFormatName f f = f := by
  unfold verifyFormatName
  split <;> rfl

/-- The signing input `_createWith` builds: `exp.format.payload`, plus the
base64url hidden element when present. -/
def hwtSigningInput (exp : ℚ) (fmt item : JStr) (hiddenItem : Option JStr) : JStr :=
  jsJoin '.' ([jsNumToStr exp, fmt, item] ++
    (match hiddenItem with
     | none => []
     | some hi => [hi]))

/-- The token `_createWith` assembles (before the size check). -/
def hwtToken {V : Type} (hmac : HKey → JStr → List Nat) (e : Engine V)
    (exp : ℚ) (pv : List Nat) (hiddenEnc : Option (List Nat)) (kc : HKey) : JStr :=
  jsJoin '.' [hwtPfx,
    (generate hmac e.signatureSize kc
      (hwtSigningInput exp e.format (b64uEncode pv) (hiddenEnc.map b64uEncode))).1,
    kc.id, jsNumToStr exp, e.format, b64uEncode pv]

theorem _createWith_ok_none {V : Type} (hmac : HKey → JStr → List Nat)
    (e : Engine V) (exp : ℚ) (v : V) (codec : Codec V) (pv : List Nat) (kc : HKey)
    (hc : lookupSlot e.registry e.format = some (some codec))
    (hpv : codec.encode v = some pv)
    (hkc : lookupKey e.keys currentName = some kc)
    (hsize : ¬((hwtToken hmac e exp pv none kc).length : ℚ) > e.maxTokenSizeBytes) :
    _createWith hmac e exp v none = .ok (hwtToken hmac e exp pv none kc) := by
  unfold _createWith
  simp only [hc, hpv, hkc]
  rw [if_neg (by exact hsize)]
  rfl

theorem _createWith_ok_some {V : Type} (hmac : HKey → JStr → List Nat)
    (e : Engine V) (exp : ℚ) (v h : V) (codec : Codec V) (pv ph : List Nat)
    (kc : HKey)
    (hc : lookupSlot e.registry e.format = some (some codec))
    (hpv : codec.encode v = some pv)
    (hph : codec.encode h = some ph)
    (hkc : lookupKey e.keys currentName = some kc)
    (hsize : ¬((hwtToken hmac e exp pv (some ph) kc).length : ℚ) >
      e.maxTokenSizeBytes) :
    _createWith hmac e exp v (some h) = .ok (hwtToken hmac e exp pv (some ph) kc) := by
  unfold _createWith
  simp only [hc, hpv, hph, hkc, Option.map]
  rw [if_neg (by exact hsize)]
  rfl

/-- `verify` ignores the first field's content beyond the `hwt` prefix,
the separator-free shape, and the size bound: replacing it leaves the
whole result unchanged. -/
theorem verify_first_field {V : Type} (hmac : HKey → JStr → List Nat)
    (e : Engine V) (now : Int) (p p2 : JStr) (y : JStr) (ys : List JStr)
    (dh : Option V)
    (hp : '.' ∉ p) (hp2 : '.' ∉ p2)
    (hpfx : hwtPfx.isPrefixOf p = true) (hpfx2 : hwtPfx.isPrefixOf p2 = true)
    (hlen : ¬((jsJoin '.' (p :: y :: ys)).length : ℚ) > e.maxTokenSizeBytes)
    (hlen2 : ¬((jsJoin '.' (p2 :: y :: ys)).length : ℚ) > e.maxTokenSizeBytes) :
    verify hmac e now (jsJoin '.' (p2 :: y :: ys)) dh =
      verify hmac e now (jsJoin '.' (p :: y :: ys)) dh := by
  have hj : ∀ q : JStr, jsJoin '.' (q :: y :: ys) = q ++ '.' :: jsJoin '.' (y :: ys) :=
    fun q => rfl
  have hs : ∀ q : JStr, '.' ∉ q →
      jsSplit '.' (jsJoin '.' (q :: y :: ys)) = q :: jsSplit '.' (jsJoin '.' (y :: ys)) := by
    intro q hq
    rw [hj q]
    exact jsSplit_field_cons '.' q _ hq
  unfold verify
  rw [if_neg (by
    push_neg
    refine ⟨?_, not_lt.1 hlen2⟩
    rw [hj p2]
    exact isPrefixOf_append hpfx2)]
  conv_rhs => rw [if_neg (by
    push_neg
    refine ⟨?_, not_lt.1 hlen⟩
    rw [hj p]
    exact isPrefixOf_append hpfx)]
  rw [hs p2 hp2, hs p hp]
  rcases jsSplit '.' (jsJoin '.' (y :: ys)) with _ | ⟨a1, _ | ⟨a2, _ | ⟨a3, _ | ⟨a4, _ | ⟨a5, t6⟩⟩⟩⟩⟩ <;> rfl

/- ### A concrete instantiation: the identity codec and a toy HMAC -/

/-- The identity codec on raw byte lists, used to run the engine on
concrete inputs. -/
def toyCodec : Codec (List Nat) := ⟨fun v => some v, fun b => some b⟩

/-- A toy HMAC: the key material followed by the fixed-width (three bytes
per character) code-point expansion of the message.  Byte-valued and, for
a fixed key, injective in the message — all the engine theorems ask of an
HMAC. -/
def toyHmac : HKey → JStr → List Nat :=
  fun k s =>
    k.material ++ s.flatMap (fun c => [c.toNat / 65536, c.toNat / 256 % 256, c.toNat % 256])

def toyKey : HKey := ⟨strLit "k1", [1, 2, 3]⟩

def toyKey2 : HKey := ⟨strLit "k2", [9, 9]⟩

/-- A default-options engine over the identity codec, keyed by `toyKey`
(with the `current` alias the key import step writes). -/
def toyEngine : Engine (List Nat) :=
  hwtrNew [(strLit "j", some toyCodec)]
    [(currentName, toyKey), (strLit "k1", toyKey)] {}

theorem charToNat_lt (c : Char) : c.toNat < 1114112 := by
  rcases c.valid with h | ⟨h1, h2⟩
  · exact lt_trans h (by norm_num)
  · exact h2

theorem charToNat_inj {c d : Char} (h : c.toNat = d.toNat) : c = d :=
  Char.eq_of_val_eq (UInt32.ext h)

theorem toyBlocks_inj : ∀ s t : JStr,
    s.flatMap (fun c => [c.toNat / 65536, c.toNat / 256 % 256, c.toNat % 256]) =
      t.flatMap (fun c => [c.toNat / 65536, c.toNat / 256 % 256, c.toNat % 256]) →
    s = t := by
  intro s
  induction s with
  | nil =>
    intro t h
    cases t with
    | nil => rfl
    | cons d t => simp at h
  | cons c s ih =>
    intro t h
    cases t with
    | nil => simp at h
    | cons d t =>
      simp only [List.flatMap_cons, List.cons_append, List.nil_append,
        List.cons.injEq] at h
      obtain ⟨e1, e2, e3, e4⟩ := h
      have hc := charToNat_lt c
      have hd := charToNat_lt d
      have hcd : c.toNat = d.toNat := by omega
      rw [charToNat_inj hcd, ih t e4]

theorem toyHmac_inj (k : HKey) (s t : JStr) (h : toyHmac k s = toyHmac k t) :
    s = t := by
  unfold toyHmac at h
  exact toyBlocks_inj s t (List.append_cancel_left h)

theorem toyHmac_wf (k : HKey) (hk : ∀ x ∈ k.material, x < 256) (s : JStr) :
    ∀ x ∈ toyHmac k s, x < 256 := by
  intro x hx
  unfold toyHmac at hx
  rcases List.mem_append.1 hx with hx | hx
  · exact hk x hx
  · obtain ⟨c, _, hmem⟩ := List.mem_flatMap.1 hx
    have := charToNat_lt c
    simp only [List.mem_cons, List.not_mem_nil, or_false] at hmem
    rcases hmem with rfl | rfl | rfl <;> omega

theorem hwtPfx_no_dot : '.' ∉ hwtPfx := by decide

theorem hwtPfx_isPrefixOf_self : hwtPfx.isPrefixOf hwtPfx = true := by decide

theorem jsNumeric_in_range {q mn mx : ℚ} (preset : ℚ) (h1 : mn ≤ q)
    (h2 : q ≤ mx) : jsNumeric (some q) preset mn mx = q := by
  show (if q < mn then mn else if q > mx then mx else q) = q
  rw [if_neg (not_lt.2 h1), if_neg (not_lt.2 h2)]

theorem jsJoin_four_ne_three (a b c d : JStr) :
    jsJoin '.' [a, b, c, d] ≠ jsJoin '.' [a, b, c] := by
  intro h
  have hl := congrArg List.length h
  simp [jsJoin, List.length_append] at hl

theorem jsJoin_four_inj_last {a b c x y : JStr}
    (h : jsJoin '.' [a, b, c, x] = jsJoin '.' [a, b, c, y]) : x = y := by
  simp only [jsJoin] at h
  have h1 := List.append_cancel_left h
  injection h1 with h1a h2
  have h3 := List.append_cancel_left h2
  injection h3 with h3a h4
  have h5 := List.append_cancel_left h4
  simpa using h5

/-- The emitted token parses back into its six fields: `verify` on a
`hwtToken` reduces to `verifyParts` on the token's own fields. -/
theorem verify_hwtToken {V : Type} (hmac : HKey → JStr → List Nat) (e : Engine V)
    (now : Int) (T : Nat) (pv : List Nat) (hidEnc : Option (List Nat)) (kc : HKey)
    (dh : Option V)
    (hpv : ∀ x ∈ pv, x < 256)
    (hwfm : ∀ s, ∀ x ∈ hmac kc s, x < 256)
    (hsig0 : e.signatureSize = 0)
    (hfmt : '.' ∉ e.format) (hkidd : '.' ∉ kc.id)
    (hsize : ¬ ((hwtToken hmac e (T : ℚ) pv hidEnc kc).length : ℚ) >
      e.maxTokenSizeBytes) :
    verify hmac e now (hwtToken hmac e (T : ℚ) pv hidEnc kc) dh =
      verifyParts hmac e now
        (b64uEncode (hmac kc (hwtSigningInput (T : ℚ) e.format (b64uEncode pv)
          (hidEnc.map b64uEncode))))
        kc.id (natStr T) e.format (b64uEncode pv) dh := by
  have htok : hwtToken hmac e (T : ℚ) pv hidEnc kc =
      jsJoin '.' [hwtPfx,
        b64uEncode (hmac kc (hwtSigningInput (T : ℚ) e.format (b64uEncode pv)
          (hidEnc.map b64uEncode))),
        kc.id, natStr T, e.format, b64uEncode pv] := by
    unfold hwtToken
    rw [hsig0, generate_zero, ← jsNumToStr_natCast T]
  rw [htok]
  exact verify_fields hmac e now _ _ _ _ _ _ dh hwtPfx_isPrefixOf_self hwtPfx_no_dot
    (b64uEncode_no_dot _ (hwfm _)) hkidd (natStr_no_dot T) hfmt
    (b64uEncode_no_dot _ hpv) (htok ▸ hsize)

/-- Full case split of `_createWith` once the codec, encodings and current
key are resolved: the assembled token is emitted unchanged when within the
size bound, and otherwise rejected (strict mode) or truncated. -/
theorem _createWith_eq {V : Type} (hmac : HKey → JStr → List Nat) (e : Engine V)
    (exp : ℚ) (v : V) (dh : Option V) (codec : Codec V) (pv : List Nat)
    (hEnc : Option (List Nat)) (kc : HKey)
    (hc : lookupSlot e.registry e.format = some (some codec))
    (hpv : codec.encode v = some pv)
    (hkc : lookupKey e.keys currentName = some kc)
    (hdh : Option.map codec.encode dh = Option.map some hEnc) :
    _createWith hmac e exp v dh =
      (if ((hwtToken hmac e exp pv hEnc kc).length : ℚ) > e.maxTokenSizeBytes then
        (if e.errorOnInvalid then Except.error CreateErr.sizeExceeded
         else Except.ok
           ((hwtToken hmac e exp pv hEnc kc).take (jsTrunc e.maxTokenSizeBytes).toNat))
      else Except.ok (hwtToken hmac e exp pv hEnc kc)) := by
  cases dh with
  | none =>
    cases hEnc with
    | none =>
      unfold _createWith
      simp only [hc, hpv, hkc]
      rfl
    | some ph => exact absurd hdh (by simp)
  | some h =>
    cases hEnc with
    | none => exact absurd hdh (by simp)
    | some ph =>
      simp only [Option.map, Option.some.injEq] at hdh
      unfold _createWith
      simp only [hc, hpv, hdh, hkc, Option.map]
      rfl

/-- The spec's claim C3 as stated: the signature comparison always does
work proportional to the longer operand's length, including on operands
of unequal length. -/
def claimC3 : Prop :=
  ∀ a b : List Nat, (timingSafeEqualInstr a b).2 = max a.length b.length

/-- C3 (corrected): the comparison used for signatures normalizes string
operands to bytes; on equal-length operands it XOR-accumulates every byte
pair (scanning the full length) and returns true exactly on equal bytes;
but operands of unequal length compare false by an immediate length check
that touches no bytes, not in work proportional to the longer operand. -/
theorem C3_constant_time_compare :
    (∀ s t : JStr, timingSafeEqual s t =
        (timingSafeEqualInstr (base64urlToUint8Array s)
          (base64urlToUint8Array t)).1) ∧
    (∀ a b : List Nat, a.length = b.length →
        (timingSafeEqualInstr a b).2 = a.length ∧
        ((timingSafeEqualInstr a b).1 = true ↔ a = b)) ∧
    (∀ a b : List Nat, a.length ≠ b.length →
        timingSafeEqualInstr a b = (false, 0)) := by
  refine ⟨fun s t => rfl, fun a b hlen => ⟨?_, timingSafeEqualInstr_eq a b⟩,
    fun a b hlen => ?_⟩
  · unfold timingSafeEqualInstr
    rw [if_neg (by omega)]
    show (a.zip b).length = a.length
    rw [List.length_zip, hlen, min_self]
  · unfold timingSafeEqualInstr
    rw [if_pos hlen]

/-- C3, counterexample to the claim as stated: on operands of length 1
and 0 the comparison does no byte work at all, not `max 1 0 = 1` steps. -/
theorem C3_claim_counterexample : ¬ claimC3 :=
  fun h => absurd (h [0] []) (by decide)

/-- C7: size bound on emitted tokens.  The assembled token is returned
unchanged when its length is within `maxTokenSizeBytes`; when it exceeds
the bound the call raises in strict mode and otherwise returns exactly
the first `maxTokenSizeBytes` characters; every emitted token's length is
within the bound. -/
theorem C7_token_size_bound {V : Type} (hmac : HKey → JStr → List Nat)
    (e : Engine V) (exp : ℚ) (v : V) (dh : Option V) (codec : Codec V)
    (pv : List Nat) (hEnc : Option (List Nat)) (kc : HKey) (M : Nat)
    (hc : lookupSlot e.registry e.format = some (some codec))
    (hpv : codec.encode v = some pv)
    (hkc : lookupKey e.keys currentName = some kc)
    (hdh : Option.map codec.encode dh = Option.map some hEnc)
    (hmax : e.maxTokenSizeBytes = (M : ℚ)) :
    ((hwtToken hmac e exp pv hEnc kc).length ≤ M →
        _createWith hmac e exp v dh = Except.ok (hwtToken hmac e exp pv hEnc kc)) ∧
    (M < (hwtToken hmac e exp pv hEnc kc).length →
        (e.errorOnInvalid = true →
          _createWith hmac e exp v dh = Except.error CreateErr.sizeExceeded) ∧
        (e.errorOnInvalid = false →
          _createWith hmac e exp v dh =
            Except.ok ((hwtToken hmac e exp pv hEnc kc).take M))) ∧
    (∀ s, _createWith hmac e exp v dh = Except.ok s → s.length ≤ M) := by
  have he := _createWith_eq hmac e exp v dh codec pv hEnc kc hc hpv hkc hdh
  rw [hmax] at he
  have hjt : (jsTrunc ((M : ℚ))).toNat = M := by
    rw [jsTrunc_natCast]
    exact Int.toNat_natCast M
  refine ⟨?_, ?_, ?_⟩
  · intro hle
    rw [he, if_neg (by push_neg; exact_mod_cast hle)]
  · intro hgt
    constructor
    · intro hstrict
      rw [he, if_pos (by exact_mod_cast hgt), if_pos hstrict]
    · intro hns
      rw [he, if_pos (by exact_mod_cast hgt), if_neg (by simp [hns]), hjt]
  · intro s hs
    rw [he] at hs
    by_cases hgt : ((hwtToken hmac e exp pv hEnc kc).length : ℚ) > (M : ℚ)
    · rw [if_pos hgt] at hs
      by_cases hstrict : e.errorOnInvalid = true
      · rw [if_pos hstrict] at hs
        exact absurd hs (by simp)
      · rw [if_neg hstrict, hjt] at hs
        injection hs with hsl
        rw [← hsl, List.length_take]
        omega
    · rw [if_neg hgt] at hs
      injection hs with hsl
      rw [← hsl]
      exact_mod_cast not_lt.1 hgt

/-- C7, witness: a concrete small token is emitted unchanged. -/
theorem C7_token_size_bound_witness :
    _createWith toyHmac toyEngine 99 [5] none =
      Except.ok (hwtToken toyHmac toyEngine 99 [5] none toyKey) :=
  (C7_token_size_bound toyHmac toyEngine 99 [5] none toyCodec [5] none toyKey
    2048 rfl rfl rfl rfl rfl).1 (by decide)

/-- The spec's claim C8 as stated, in the part its wording gets wrong: a
non-numeric (`NaN`) explicit lifetime falls back to the engine's
configured default lifetime. -/
def claimC8 : Prop :=
  ∀ (e : Engine (List Nat)) (now : Int),
    expiresAt e now JsArg.nan = (now : ℚ) + e.expiresInSeconds

/-- C8 (corrected): an explicit numeric lifetime is clamped to
`[1, 31557600]`; but a non-numeric lifetime becomes the `numeric` helper's
preset `1` second — not the engine's configured default, which is used
only when the argument is left out entirely (`undefined`). -/
theorem C8_ttl_clamp {V : Type} (e : Engine V) (now : Int) (q : ℚ) :
    (q < 1 → expiresAt e now (JsArg.num q) = (now : ℚ) + 1) ∧
    (1 ≤ q → q ≤ 31557600 → expiresAt e now (JsArg.num q) = (now : ℚ) + q) ∧
    (31557600 < q → expiresAt e now (JsArg.num q) = (now : ℚ) + 31557600) ∧
    (expiresAt e now JsArg.nan = (now : ℚ) + 1) ∧
    (expiresAt e now JsArg.undef =
      (now : ℚ) + jsNumeric (some e.expiresInSeconds) 1 1 31557600) := by
  refine ⟨?_, ?_, ?_, rfl, rfl⟩
  · intro h
    show (now : ℚ) +
        (if q < 1 then (1 : ℚ) else if q > 31557600 then 31557600 else q) =
      (now : ℚ) + 1
    rw [if_pos h]
  · intro h1 h2
    show (now : ℚ) + jsNumeric (some q) 1 1 31557600 = (now : ℚ) + q
    rw [jsNumeric_in_range 1 h1 h2]
  · intro h
    show (now : ℚ) +
        (if q < 1 then (1 : ℚ) else if q > 31557600 then 31557600 else q) =
      (now : ℚ) + 31557600
    rw [if_neg (not_lt.2 (by linarith)), if_pos h]

/-- C8, counterexample to the claim as stated: with the default engine
(configured lifetime 60 seconds), a NaN lifetime yields an expiry 1
second out, not 60. -/
theorem C8_claim_counterexample : ¬ claimC8 := by
  intro h
  have h2 := h toyEngine 0
  rw [show expiresAt toyEngine 0 JsArg.nan = ((0 : Int) : ℚ) + 1 from rfl,
    show toyEngine.expiresInSeconds = jsNumeric (some 60) 60 0 31557600 from rfl]
    at h2
  have h3 := add_left_cancel h2
  rw [jsNumeric_in_range 60 (by norm_num) (by norm_num)] at h3
  norm_num at h3

/-- An ordinary array that happens to look like the `jx` codec's internal
sentinel tag `[-7, 1, ms]` for dates. -/
def jxAmbig : JVal := JVal.arr [JVal.num (-7), JVal.num 1, JVal.num 0]

/-- A nested value exercising every special kind the `jx` codec declares:
`Date`, `BigInt`, `Set`, `Map`, numeric and big-integer typed arrays and
a raw byte buffer. -/
def jxDemo : JVal :=
  JVal.obj [(strLit "a", JVal.arr [JVal.date 5, JVal.bigint (-3)]),
    (strLit "b", JVal.set [JVal.num 1, JVal.str (strLit "x")]),
    (strLit "c", JVal.map [(JVal.str (strLit "k"), JVal.buf [1, 2])]),
    (strLit "d", JVal.typed 0 [1, -2]),
    (strLit "e", JVal.bigTyped 10 [7])]

/-- The spec's claim C5 as stated: the extended codec round-trips every
value of its declared universe (here: every well-formed `JVal`), with no
further side condition. -/
def claimC5 : Prop := ∀ v : JVal, wfB v = true → jxDec (jxEnc v) = some v

/-- C5 (corrected): `decode(encode(v))` is structurally equal to `v` for
every well-formed value of the declared universe that is also
sentinel-safe: none of its ordinary arrays begins with the number `-7`
followed by a discriminator number, the shape the codec reserves for its
own tags. -/
theorem C5_extended_codec_roundtrip (v : JVal) (hs : safeB v = true)
    (hw : wfB v = true) : jxDec (jxEnc v) = some v :=
  jx_roundtrip v hs hw

/-- C5, witness: a nested value combining a date, a big integer, a set, a
map, typed arrays of both element families and a byte buffer round-trips
exactly. -/
theorem C5_extended_codec_roundtrip_witness :
    safeB jxDemo = true ∧ wfB jxDemo = true ∧ jxDec (jxEnc jxDemo) = some jxDemo :=
  ⟨rfl, rfl, C5_extended_codec_roundtrip jxDemo rfl rfl⟩

/-- C5, counterexample to the claim as stated: the plain array
`[-7, 1, 0]` is in the declared universe (JSON-serializable primitives in
an array) yet decodes to `new Date(0)`, not to itself. -/
theorem C5_claim_counterexample : ¬ claimC5 := by
  intro h
  have h2 := h jxAmbig rfl
  rw [show jxDec (jxEnc jxAmbig) = some (JVal.date 0) from rfl] at h2
  exact JVal.noConfusion (Option.some.inj h2)

/-- The codec-name resolution rule claim C6 states, read off the spec's
words: an empty format field means the default JSON codec `j`, any other
name stands for itself. -/
def specFormatName (fmtField : JStr) : JStr :=
  if fmtField = [] then strLit "j" else fmtField

/-- The spec's claim C6 as stated: verification-time codec-name
resolution follows `specFormatName` for every engine, whatever the
engine's configured format. -/
def claimC6 : Prop :=
  ∀ selfFormat fmtField : JStr,
    verifyFormatName selfFormat fmtField = specFormatName fmtField

/-- C6 (corrected): an empty format field falls back to the engine's own
configured format — which coincides with the spec's rule exactly when
that format is `j`.  A non-empty unregistered name is reported as
`hwt unknown encoding "<name>"` (raised or returned per the strict flag)
unless the name is inherited from `Object.prototype` (e.g. `toString`):
then the truthy inherited value passes the `if (!codec)` check and
verification proceeds with it — still never a silent fallback to a
working codec, since the inherited value can never decode and the result
is never `ok`. -/
theorem C6_format_resolution {V : Type} (hmac : HKey → JStr → List Nat)
    (e : Engine V) (now : Int) (sig kid expS fmt d : JStr) (dh : Option V) :
    (∀ selfFormat fmtField : JStr,
        verifyFormatName selfFormat fmtField =
          (if fmtField = [] then selfFormat else fmtField)) ∧
    (e.format = strLit "j" →
        ∀ f : JStr, verifyFormatName e.format f = specFormatName f) ∧
    ((isExpired e.leewaySeconds now expS).validTime = true →
      fmt ≠ [] →
      (lookupSlot e.registry fmt = none ∨ lookupSlot e.registry fmt = some none) →
      protoTruthy fmt = false →
      verifyParts hmac e now sig kid expS fmt d dh =
        (if e.errorOnEncoding then Except.error (unknownEncodingMsg fmt)
         else Except.ok
           { (vrTime (isExpired e.leewaySeconds now expS) : VerifyResult V) with
             error := some (unknownEncodingMsg fmt) })) ∧
    ((isExpired e.leewaySeconds now expS).validTime = true →
      fmt ≠ [] →
      lookupSlot e.registry fmt = none →
      protoTruthy fmt = true →
      verifyParts hmac e now sig kid expS fmt d dh =
        verifyWithCodec hmac e now sig kid expS fmt d dh protoCodec) ∧
    resultOkBit (verifyWithCodec hmac e now sig kid expS fmt d dh
      (protoCodec : Codec V)) = false := by
  have hv : fmt ≠ [] → verifyFormatName e.format fmt = fmt := by
    intro hne
    unfold verifyFormatName
    rw [if_neg hne]
  refine ⟨fun _ _ => rfl, ?_, ?_, ?_, ?_⟩
  · intro hj f
    rw [hj]
    rfl
  · intro ht hne hslot hpt
    exact verifyParts_unknown_codec hmac e now sig kid expS fmt d dh ht
      (by rw [hv hne]; exact hslot) (fun _ => by rw [hv hne]; exact hpt)
  · intro ht hne hslot hpt
    exact verifyParts_proto_codec hmac e now sig kid expS fmt d dh ht
      (by rw [hv hne]; exact hslot) (by rw [hv hne]; exact hpt)
  · cases dh with
    | some hv2 =>
      rw [verifyWithCodec_enc_failed hmac e now sig kid expS fmt d (some hv2)
        protoCodec rfl]
      split
      · rfl
      · simp [resultOkBit, vrTime_ok]
    | none =>
      rcases hkq : lookupKey e.keys kid with _ | key
      · cases hpt : protoTruthy kid
        · rw [verifyWithCodec_unknown_key hmac e now sig kid expS fmt d none
            protoCodec [expS, fmt, d] rfl hkq hpt]
          split
          · rfl
          · simp [resultOkBit, vrTime_ok]
        · rw [verifyWithCodec_proto_key hmac e now sig kid expS fmt d none
            protoCodec [expS, fmt, d] rfl hkq hpt]
          rfl
      · rw [verifyWithCodec_sig hmac e now sig kid expS fmt d none protoCodec
          key [expS, fmt, d] rfl hkq]
        split
        · rfl
        · split
          · rfl
          · simp [resultOkBit, vrTime_ok]

/-- C6, counterexample to the claim as stated: an engine configured with
format `x` resolves an empty format field to `x`, not to the default
JSON codec `j`. -/
theorem C6_claim_counterexample : ¬ claimC6 := by
  intro h
  have h2 := h (strLit "x") []
  rw [show verifyFormatName (strLit "x") [] = strLit "x" from rfl,
    show specFormatName [] = strLit "j" from rfl] at h2
  exact absurd h2 (by decide)

/-- `verifyParts` on a token whose time check failed: `hwt expired`,
raised or returned per `errorOnExpired`. -/
theorem verifyParts_expired {V : Type} (hmac : HKey → JStr → List Nat)
    (e : Engine V) (now : Int) (sig kid expS fmt d : JStr) (dh : Option V)
    (htime : (isExpired e.leewaySeconds now expS).validTime = false) :
    verifyParts hmac e now sig kid expS fmt d dh =
      (if e.errorOnExpired then Except.error (strLit "hwt expired")
       else Except.ok
         { (vrTime (isExpired e.leewaySeconds now expS) : VerifyResult V) with
           error := some (strLit "hwt expired") }) := by
  unfold verifyParts
  rw [if_pos htime]

/-- Full reduction of `verify` on an emitted token with valid time, down
to the signature comparison between the token's signature and the freshly
recomputed one. -/
theorem verify_hwtToken_red {V : Type} (hmac : HKey → JStr → List Nat)
    (e : Engine V) (now : Int) (T : Nat) (pv : List Nat)
    (hidEnc : Option (List Nat)) (kc key : HKey) (dh : Option V)
    (codec : Codec V) (parts : List JStr)
    (hpv : ∀ x ∈ pv, x < 256)
    (hwfm : ∀ s, ∀ x ∈ hmac kc s, x < 256)
    (hsig0 : e.signatureSize = 0)
    (hfmt : '.' ∉ e.format) (hkidd : '.' ∉ kc.id)
    (hsize : ¬ ((hwtToken hmac e (T : ℚ) pv hidEnc kc).length : ℚ) >
      e.maxTokenSizeBytes)
    (htime : (isExpired e.leewaySeconds now (natStr T)).validTime = true)
    (hcodec : lookupSlot e.registry e.format = some (some codec))
    (hkey : lookupKey e.keys kc.id = some key)
    (hparts : (match dh with
       | none => some [natStr T, e.format, b64uEncode pv]
       | some hv => (codec.encode hv).map
           (fun encH => [natStr T, e.format, b64uEncode pv, b64uEncode encH]))
         = some parts) :
    verify hmac e now (hwtToken hmac e (T : ℚ) pv hidEnc kc) dh =
      (if timingSafeEqual
          (b64uEncode (hmac kc (hwtSigningInput (T : ℚ) e.format (b64uEncode pv)
            (hidEnc.map b64uEncode))))
          (b64uEncode (hmac key (jsJoin '.' parts))) then
        match codec.decode (base64urlToUint8Array (b64uEncode pv)) with
        | some dd =>
          Except.ok
            { (vrTime (isExpired e.leewaySeconds now (natStr T)) : VerifyResult V) with
              ok := true
              data := some dd }
        | none =>
          Except.ok
            { (vrTime (isExpired e.leewaySeconds now (natStr T)) : VerifyResult V) with
              ok := false
              data := none
              error := some (strLit "hwt data decoding failed") }
      else
        if e.errorOnInvalid then Except.error (strLit "hwt invalid signature")
        else Except.ok
          { (vrTime (isExpired e.leewaySeconds now (natStr T)) : VerifyResult V) with
            ok := false
            error := some (strLit "hwt invalid signature") }) := by
  rw [verify_hwtToken hmac e now T pv hidEnc kc dh hpv hwfm hsig0 hfmt hkidd hsize,
    verifyParts_main hmac e now _ kc.id (natStr T) e.format (b64uEncode pv) dh codec
      key parts htime (by rw [verifyFormatName_self]; exact hcodec) hkey hparts,
    hsig0, generate_zero]

/-- C2: expiry/leeway monotonicity.  For a correctly signed token whose
expiry field is `T` and an engine with leeway `L`: at `now = T-1` the
result is ok and not expired; at `now = T` and `now = T+L` it is ok,
expired and within leeway; at `now = T+L+1` it is not ok, expired,
outside leeway, with error `hwt expired`. -/
theorem C2_expiry_leeway_monotonicity {V : Type} (hmac : HKey → JStr → List Nat)
    (e : Engine V) (T L : Nat) (v w : V) (codec : Codec V) (pv : List Nat)
    (kc : HKey)
    (_hpv : codec.encode v = some pv)
    (hpvwf : ∀ x ∈ pv, x < 256)
    (hwfm : ∀ s, ∀ x ∈ hmac kc s, x < 256)
    (hsig0 : e.signatureSize = 0)
    (hfmt : '.' ∉ e.format) (hkidd : '.' ∉ kc.id)
    (hsize : ¬ ((hwtToken hmac e (T : ℚ) pv none kc).length : ℚ) >
      e.maxTokenSizeBytes)
    (hc : lookupSlot e.registry e.format = some (some codec))
    (hkey : lookupKey e.keys kc.id = some kc)
    (hlee : e.leewaySeconds = (L : ℚ))
    (hdec : codec.decode pv = some w)
    (herr : e.errorOnExpired = false) :
    verify hmac e ((T : Int) - 1) (hwtToken hmac e (T : ℚ) pv none kc) none =
      Except.ok { ok := true
                  data := some w
                  validTime := some true
                  expired := some false
                  expires := some ((T : ℚ)) } ∧
    verify hmac e (T : Int) (hwtToken hmac e (T : ℚ) pv none kc) none =
      Except.ok { ok := true
                  data := some w
                  validTime := some true
                  expired := some true
                  expires := some ((T : ℚ))
                  withinLeeway := some true } ∧
    verify hmac e ((T : Int) + L) (hwtToken hmac e (T : ℚ) pv none kc) none =
      Except.ok { ok := true
                  data := some w
                  validTime := some true
                  expired := some true
                  expires := some ((T : ℚ))
                  withinLeeway := some true } ∧
    verify hmac e ((T : Int) + L + 1) (hwtToken hmac e (T : ℚ) pv none kc) none =
      Except.ok { ok := false
                  error := some (strLit "hwt expired")
                  validTime := some false
                  expired := some true
                  expires := some ((T : ℚ))
                  withinLeeway := some false } := by
  have hok : ∀ (now : Int) (tc : TimeCheck),
      isExpired e.leewaySeconds now (natStr T) = tc → tc.validTime = true →
      verify hmac e now (hwtToken hmac e (T : ℚ) pv none kc) none =
        Except.ok { (vrTime tc : VerifyResult V) with ok := true, data := some w } := by
    intro now tc htc hvt
    rw [verify_hwtToken_red hmac e now T pv none kc kc none codec
        [natStr T, e.format, b64uEncode pv] hpvwf hwfm hsig0 hfmt hkidd hsize
        (by rw [htc]; exact hvt) hc hkey rfl]
    rw [show hwtSigningInput (T : ℚ) e.format (b64uEncode pv)
        (Option.map b64uEncode none) =
        jsJoin '.' ([jsNumToStr (T : ℚ), e.format, b64uEncode pv] ++ []) from rfl,
      jsNumToStr_natCast, List.append_nil]
    rw [if_pos (tse_self _), b64u_roundtrip pv hpvwf, hdec, htc]
  refine ⟨?_, ?_, ?_, ?_⟩
  · exact hok ((T : Int) - 1) _
      (isExpired_natStr_live e.leewaySeconds _ T (by omega)) rfl
  · have hd2 : decide (((T : Int) : ℚ) - (T : ℚ) ≤ e.leewaySeconds) = true := by
      rw [decide_eq_true_eq, hlee]
      push_cast
      simp
    have ht2 : isExpired e.leewaySeconds (T : Int) (natStr T) =
        { expires := (T : ℚ)
          now := (T : Int)
          expired := true
          validTime := true
          withinLeeway := some true } := by
      rw [isExpired_natStr_expired e.leewaySeconds (T : Int) T (by omega), hd2]
    exact hok (T : Int) _ ht2 rfl
  · have hd3 : decide ((((T : Int) + L : Int) : ℚ) - (T : ℚ) ≤ e.leewaySeconds)
        = true := by
      rw [decide_eq_true_eq, hlee]
      push_cast
      linarith
    have ht3 : isExpired e.leewaySeconds ((T : Int) + L) (natStr T) =
        { expires := (T : ℚ)
          now := (T : Int) + L
          expired := true
          validTime := true
          withinLeeway := some true } := by
      rw [isExpired_natStr_expired e.leewaySeconds ((T : Int) + L) T (by omega), hd3]
    exact hok ((T : Int) + L) _ ht3 rfl
  · have hd4 : decide ((((T : Int) + L + 1 : Int) : ℚ) - (T : ℚ) ≤ e.leewaySeconds)
        = false := by
      apply decide_eq_false
      rw [hlee]
      push_cast
      intro hcon
      linarith
    have ht4 : isExpired e.leewaySeconds ((T : Int) + L + 1) (natStr T) =
        { expires := (T : ℚ)
          now := (T : Int) + L + 1
          expired := true
          validTime := false
          withinLeeway := some false } := by
      rw [isExpired_natStr_expired e.leewaySeconds ((T : Int) + L + 1) T (by omega),
        hd4]
    rw [verify_hwtToken hmac e ((T : Int) + L + 1) T pv none kc none hpvwf hwfm
        hsig0 hfmt hkidd hsize,
      verifyParts_expired hmac e _ _ _ _ _ _ none (by rw [ht4]), herr]
    rw [if_neg (by simp), ht4]
    rfl

/-- C2, witness: the concrete engine verifies its own token one second
before expiry. -/
theorem C2_expiry_leeway_monotonicity_witness :
    verify toyHmac toyEngine (((100 : Nat) : Int) - 1)
        (hwtToken toyHmac toyEngine ((100 : Nat) : ℚ) [5] none toyKey) none =
      Except.ok { ok := true
                  data := some [5]
                  validTime := some true
                  expired := some false
                  expires := some (((100 : Nat) : ℚ)) } :=
  (C2_expiry_leeway_monotonicity toyHmac toyEngine 100 1 [5] [5] toyCodec [5]
    toyKey rfl (by decide) (toyHmac_wf toyKey (by decide)) rfl (by decide)
    (by decide) (by decide) rfl rfl rfl rfl rfl).1

/-- C1: hidden-input binding.  The token created with hidden input `h`
verifies (before expiry) when the same hidden input is supplied, fails
with `hwt invalid signature` when the hidden input is left out, and fails
the same way for any hidden input whose encoding differs — assuming HMAC
(with the current key) is collision-free on the signing inputs. -/
theorem C1_hidden_input_binding {V : Type} (hmac : HKey → JStr → List Nat)
    (e : Engine V) (n0 Lttl : Nat) (now : Int) (v w h h2 : V) (codec : Codec V)
    (pv ph ph2 : List Nat) (kc : HKey)
    (hL1 : 1 ≤ Lttl) (hL2 : Lttl ≤ 31557600)
    (hc : lookupSlot e.registry e.format = some (some codec))
    (hpv : codec.encode v = some pv)
    (hpvwf : ∀ x ∈ pv, x < 256)
    (hph : codec.encode h = some ph)
    (hphwf : ∀ x ∈ ph, x < 256)
    (hph2 : codec.encode h2 = some ph2)
    (hph2wf : ∀ x ∈ ph2, x < 256)
    (hne : ph2 ≠ ph)
    (hkc : lookupKey e.keys currentName = some kc)
    (hkey : lookupKey e.keys kc.id = some kc)
    (hinj : ∀ s t, hmac kc s = hmac kc t → s = t)
    (hwfm : ∀ s, ∀ x ∈ hmac kc s, x < 256)
    (hsig0 : e.signatureSize = 0)
    (hfmt : '.' ∉ e.format) (hkidd : '.' ∉ kc.id)
    (hsize : ¬ ((hwtToken hmac e ((n0 + Lttl : Nat) : ℚ) pv (some ph) kc).length : ℚ)
      > e.maxTokenSizeBytes)
    (htime : now < ((n0 + Lttl : Nat) : Int))
    (hdec : codec.decode pv = some w)
    (herr : e.errorOnInvalid = false) :
    createWith hmac e (n0 : Int) (JsArg.num ((Lttl : Nat) : ℚ)) v (some h) =
      Except.ok (hwtToken hmac e ((n0 + Lttl : Nat) : ℚ) pv (some ph) kc) ∧
    verify hmac e now (hwtToken hmac e ((n0 + Lttl : Nat) : ℚ) pv (some ph) kc)
        (some h) =
      Except.ok { ok := true
                  data := some w
                  validTime := some true
                  expired := some false
                  expires := some (((n0 + Lttl : Nat) : ℚ)) } ∧
    verify hmac e now (hwtToken hmac e ((n0 + Lttl : Nat) : ℚ) pv (some ph) kc)
        none =
      Except.ok { ok := false
                  error := some (strLit "hwt invalid signature")
                  validTime := some true
                  expired := some false
                  expires := some (((n0 + Lttl : Nat) : ℚ)) } ∧
    verify hmac e now (hwtToken hmac e ((n0 + Lttl : Nat) : ℚ) pv (some ph) kc)
        (some h2) =
      Except.ok { ok := false
                  error := some (strLit "hwt invalid signature")
                  validTime := some true
                  expired := some false
                  expires := some (((n0 + Lttl : Nat) : ℚ)) } := by
  have hlive := isExpired_natStr_live e.leewaySeconds now (n0 + Lttl) htime
  have hsigin : hwtSigningInput ((n0 + Lttl : Nat) : ℚ) e.format (b64uEncode pv)
      (Option.map b64uEncode (some ph)) =
      jsJoin '.' ([jsNumToStr ((n0 + Lttl : Nat) : ℚ), e.format, b64uEncode pv] ++
        [b64uEncode ph]) := rfl
  refine ⟨?_, ?_, ?_, ?_⟩
  · have hexp : expiresAt e (n0 : Int) (JsArg.num ((Lttl : Nat) : ℚ)) =
        ((n0 + Lttl : Nat) : ℚ) := by
      show ((n0 : Int) : ℚ) + jsNumeric (some ((Lttl : Nat) : ℚ)) 1 1 31557600 =
        ((n0 + Lttl : Nat) : ℚ)
      rw [jsNumeric_in_range 1 (by exact_mod_cast hL1) (by exact_mod_cast hL2)]
      push_cast
      ring
    unfold createWith
    rw [hexp]
    exact _createWith_ok_some hmac e _ v h codec pv ph kc hc hpv hph hkc hsize
  · rw [verify_hwtToken_red hmac e now (n0 + Lttl) pv (some ph) kc kc (some h)
        codec [natStr (n0 + Lttl), e.format, b64uEncode pv, b64uEncode ph]
        hpvwf hwfm hsig0 hfmt hkidd hsize (by rw [hlive]) hc hkey
        (by simp [hph])]
    rw [hsigin, jsNumToStr_natCast,
      show ([natStr (n0 + Lttl), e.format, b64uEncode pv] : List JStr) ++
        [b64uEncode ph] =
        [natStr (n0 + Lttl), e.format, b64uEncode pv, b64uEncode ph] from rfl]
    rw [if_pos (tse_self _), b64u_roundtrip pv hpvwf, hdec, hlive]
    rfl
  · rw [verify_hwtToken_red hmac e now (n0 + Lttl) pv (some ph) kc kc none
        codec [natStr (n0 + Lttl), e.format, b64uEncode pv]
        hpvwf hwfm hsig0 hfmt hkidd hsize (by rw [hlive]) hc hkey rfl]
    rw [hsigin, jsNumToStr_natCast]
    rw [if_neg ?hneq3, herr, if_neg (by simp), hlive]
    case hneq3 =>
      rw [timingSafeEqual_b64 (hwfm _) (hwfm _)]
      intro hmeq
      exact jsJoin_four_ne_three (natStr (n0 + Lttl)) e.format (b64uEncode pv)
        (b64uEncode ph) (hinj _ _ hmeq)
    rfl
  · rw [verify_hwtToken_red hmac e now (n0 + Lttl) pv (some ph) kc kc (some h2)
        codec [natStr (n0 + Lttl), e.format, b64uEncode pv, b64uEncode ph2]
        hpvwf hwfm hsig0 hfmt hkidd hsize (by rw [hlive]) hc hkey
        (by simp [hph2])]
    rw [hsigin, jsNumToStr_natCast]
    rw [if_neg ?hneq4, herr, if_neg (by simp), hlive]
    case hneq4 =>
      rw [timingSafeEqual_b64 (hwfm _) (hwfm _)]
      intro hmeq
      have hx := jsJoin_four_inj_last (hinj _ _ hmeq)
      exact hne (b64uEncode_inj hph2wf hphwf hx.symm)
    rfl

/-- C1, witness: the concrete engine accepts its own hidden-bound token
when the matching hidden input is supplied. -/
theorem C1_hidden_input_binding_witness :
    verify toyHmac toyEngine 80
        (hwtToken toyHmac toyEngine (((50 + 60 : Nat)) : ℚ) [5] (some [7]) toyKey)
        (some [7]) =
      Except.ok { ok := true
                  data := some [5]
                  validTime := some true
                  expired := some false
                  expires := some (((50 + 60 : Nat) : ℚ)) } :=
  (C1_hidden_input_binding toyHmac toyEngine 50 60 80 [5] [5] [7] [8] toyCodec
    [5] [7] [8] toyKey (by decide) (by decide) rfl rfl (by decide) rfl
    (by decide) rfl (by decide) (by decide) rfl rfl (toyHmac_inj toyKey)
    (toyHmac_wf toyKey (by decide)) rfl (by decide) (by decide) (by decide)
    (by decide) rfl rfl).2.1

/-- The spec's claim C4 as stated: with none of the strict flags enabled
at construction, no engine call ever raises — every failure is reported
through the returned result. -/
def claimC4 : Prop :=
  ∀ (hmac : HKey → JStr → List Nat)
    (registry : List (JStr × Option (Codec (List Nat))))
    (keys : List (JStr × HKey)) (opts : HwtrOpts),
    opts.errors = false → opts.errorOnInvalid = false →
    opts.errorOnExpired = false → opts.errorOnEncoding = none →
    (∀ (now : Int) (tok : JStr) (dh : Option (List Nat)),
      (verify hmac (hwtrNew registry keys opts) now tok dh).isOk = true) ∧
    (∀ (exp : ℚ) (v : List Nat) (dh : Option (List Nat)),
      (_createWith hmac (hwtrNew registry keys opts) exp v dh).isOk = true)

/-- C4 (corrected): a default-options constructor leaves `errorOnInvalid`
and `errorOnExpired` off but turns `errorOnEncoding` ON, so default
engines do raise on unknown encodings.  Even with all three strict flags
off, `verify` is non-throwing only for tokens whose key-id field does
not name an `Object.prototype` property while missing the keyring: such
a field (e.g. `constructor`) passes the `if (!key)` check and `generate`
raises whatever the flags say.  Not strict-flag-gated at all,
`createWith` propagates a codec `encode` throw and (with
`errorOnInvalid` off) otherwise always returns a token. -/
theorem C4_default_mode_error_behavior :
    (∀ (V2 : Type) (registry : List (JStr × Option (Codec V2)))
        (keys : List (JStr × HKey)) (opts : HwtrOpts),
        opts.errors = false → opts.errorOnInvalid = false →
        opts.errorOnExpired = false → opts.errorOnEncoding = none →
        (hwtrNew registry keys opts).errorOnInvalid = false ∧
        (hwtrNew registry keys opts).errorOnExpired = false ∧
        (hwtrNew registry keys opts).errorOnEncoding = true) ∧
    (∀ (V2 : Type) (hmac : HKey → JStr → List Nat) (e : Engine V2)
        (now : Int) (tok : JStr) (dh : Option V2),
        e.errorOnInvalid = false → e.errorOnExpired = false →
        e.errorOnEncoding = false →
        (match jsSplit '.' tok with
          | _ :: _ :: kid :: _ =>
            lookupKey e.keys kid = none → protoTruthy kid = false
          | _ => True) →
        (verify hmac e now tok dh).isOk = true) ∧
    (∀ (V2 : Type) (hmac : HKey → JStr → List Nat) (e : Engine V2) (now : Int)
        (sig kid expS fmt d : JStr) (dh : Option V2) (codec : Codec V2)
        (parts : List JStr),
        e.errorOnInvalid = false → e.errorOnExpired = false →
        e.errorOnEncoding = false →
        (isExpired e.leewaySeconds now expS).validTime = true →
        lookupSlot e.registry (verifyFormatName e.format fmt) =
          some (some codec) →
        (match dh with
          | none => some [expS, fmt, d]
          | some hv => (codec.encode hv).map
              (fun encH => [expS, fmt, d, b64uEncode encH])) = some parts →
        lookupKey e.keys kid = none →
        protoTruthy kid = true →
        verifyParts hmac e now sig kid expS fmt d dh = generateThrow e ∧
          (generateThrow e : Except JStr (VerifyResult V2)).isOk = false) ∧
    (∀ (V2 : Type) (hmac : HKey → JStr → List Nat) (e : Engine V2) (exp : ℚ)
        (v : V2) (dh : Option V2) (codec : Codec V2),
        lookupSlot e.registry e.format = some (some codec) →
        codec.encode v = none →
        _createWith hmac e exp v dh = Except.error CreateErr.encodingThrew) ∧
    (∀ (V2 : Type) (hmac : HKey → JStr → List Nat) (e : Engine V2) (exp : ℚ)
        (v : V2) (dh : Option V2) (codec : Codec V2) (pv : List Nat)
        (hEnc : Option (List Nat)) (kc : HKey),
        lookupSlot e.registry e.format = some (some codec) →
        codec.encode v = some pv →
        lookupKey e.keys currentName = some kc →
        Option.map codec.encode dh = Option.map some hEnc →
        e.errorOnInvalid = false →
        (_createWith hmac e exp v dh).isOk = true) := by
  refine ⟨?_, ?_, ?_, ?_, ?_⟩
  · intro V2 registry keys opts he hi hx hn
    refine ⟨?_, ?_, ?_⟩
    · show (opts.errors || opts.errorOnInvalid) = false
      rw [he, hi]
      rfl
    · show (opts.errors || opts.errorOnExpired) = false
      rw [he, hx]
      rfl
    · show (if opts.errors then true else opts.errorOnEncoding.getD true) = true
      rw [he, hn]
      rfl
  · intro V2 hmac e now tok dh h1 h2 h3 hkid
    have hvp : ∀ (sig kid expS fmt d : JStr),
        (lookupKey e.keys kid = none → protoTruthy kid = false) →
        (verifyParts hmac e now sig kid expS fmt d dh).isOk = true := by
      intro sig kid expS fmt d hkok
      by_cases hvt : (isExpired e.leewaySeconds now expS).validTime = false
      · rw [verifyParts_expired hmac e now sig kid expS fmt d dh hvt, h2]
        rfl
      · have hvt2 : (isExpired e.leewaySeconds now expS).validTime = true := by
          cases hb : (isExpired e.leewaySeconds now expS).validTime
          · exact absurd hb hvt
          · rfl
        have hwc : ∀ codecArg : Codec V2,
            (verifyWithCodec hmac e now sig kid expS fmt d dh codecArg).isOk
              = true := by
          intro codecArg
          rcases hsp : (match dh with
            | none => some [expS, fmt, d]
            | some hv => (codecArg.encode hv).map
                (fun encH => [expS, fmt, d, b64uEncode encH])) with _ | parts
          · rw [verifyWithCodec_enc_failed hmac e now sig kid expS fmt d dh
              codecArg hsp, h3]
            rfl
          · rcases hkq : lookupKey e.keys kid with _ | key
            · rw [verifyWithCodec_unknown_key hmac e now sig kid expS fmt d dh
                codecArg parts hsp hkq (hkok hkq), h1]
              rfl
            · rw [verifyWithCodec_sig hmac e now sig kid expS fmt d dh codecArg
                key parts hsp hkq]
              split
              · split <;> rfl
              · rw [h1]
                rfl
        rcases hslot : lookupSlot e.registry (verifyFormatName e.format fmt)
          with _ | sl
        · cases hpt : protoTruthy (verifyFormatName e.format fmt)
          · rw [verifyParts_unknown_codec hmac e now sig kid expS fmt d dh hvt2
              (Or.inl hslot) (fun _ => hpt), h3]
            rfl
          · rw [verifyParts_proto_codec hmac e now sig kid expS fmt d dh hvt2
              hslot hpt]
            exact hwc _
        · cases sl with
          | none =>
            rw [verifyParts_unknown_codec hmac e now sig kid expS fmt d dh hvt2
              (Or.inr hslot)
              (fun hno => by rw [hno] at hslot; exact Option.noConfusion hslot)]
            rw [h3]
            rfl
          | some codec =>
            rw [verifyParts_codec hmac e now sig kid expS fmt d dh codec hvt2
              hslot]
            exact hwc _
    unfold verify
    by_cases hpre : (¬ hwtPfx.isPrefixOf tok = true ∨
      ((tok.length : ℚ)) > e.maxTokenSizeBytes)
    · rw [if_pos hpre, h1]
      rfl
    · rw [if_neg hpre]
      rcases hsp : jsSplit '.' tok with
        _ | ⟨a0, _ | ⟨a1, _ | ⟨a2, _ | ⟨a3, _ | ⟨a4, _ | ⟨a5, t⟩⟩⟩⟩⟩⟩ <;>
        first
          | (rw [h1]; rfl)
          | exact hvp _ _ _ _ _ (by rw [hsp] at hkid; exact hkid)
  · intro V2 hmac e now sig kid expS fmt d dh codec parts h1 h2 h3 ht hcodec
      hparts hkey hpt
    refine ⟨?_, rfl⟩
    rw [verifyParts_codec hmac e now sig kid expS fmt d dh codec ht hcodec]
    exact verifyWithCodec_proto_key hmac e now sig kid expS fmt d dh codec parts
      hparts hkey hpt
  · intro V2 hmac e exp v dh codec hc henc
    unfold _createWith
    simp only [hc, henc]
  · intro V2 hmac e exp v dh codec pv hEnc kc hc hpv hkc hdh hinv
    rw [_createWith_eq hmac e exp v dh codec pv hEnc kc hc hpv hkc hdh]
    split
    · rw [hinv]
      rfl
    · rfl

/-- C4, counterexample to the claim as stated: a default engine raises
`hwt unknown encoding "z"` on a structurally valid, unexpired token whose
format field names no registered codec. -/
theorem C4_claim_counterexample : ¬ claimC4 := by
  intro hcl
  have h2 := (hcl toyHmac [(strLit "j", some toyCodec)]
    [(currentName, toyKey), (strLit "k1", toyKey)] {} rfl rfl rfl rfl).1
    0 (strLit "hwt.s.k.9.z.d") none
  exact absurd h2 (by decide)

/-- The spec's claim C9 as stated, in the part its wording gets wrong: a
token whose key-id field names no imported key id fails with
`hwt unknown key`. -/
def claimC9 : Prop :=
  ∀ (hmac : HKey → JStr → List Nat) (e : Engine (List Nat)) (now : Int)
    (sig kid expS fmt d : JStr) (dh : Option (List Nat)),
    kid ∉ e.keys.map (fun p => p.2.id) →
    verifyParts hmac e now sig kid expS fmt d dh =
      (if e.errorOnInvalid then Except.error (strLit "hwt unknown key")
       else Except.ok
         { (vrTime (isExpired e.leewaySeconds now expS) :
             VerifyResult (List Nat)) with
           error := some (strLit "hwt unknown key") })

/-- C9 (corrected): verification is invariant under swapping the keyring
for one that resolves the token's key id to the same key (so rotation
keeps old tokens valid regardless of which key is `current`); `current`
determines only which key signs newly created tokens.  The unknown-key
failure occurs exactly when the `#keys` lookup misses every own property
(imported ids and the `current` alias) **and** the id names no
`Object.prototype` property: a key id like `constructor` resolves to a
truthy inherited value, passes the `if (!key)` check, and the call then
raises inside `generate` instead of reporting `hwt unknown key`. -/
theorem C9_key_rotation_contract :
    (∀ (V2 : Type) (hmac : HKey → JStr → List Nat) (e : Engine V2)
        (keys2 : List (JStr × HKey)) (now : Int) (sig kid expS fmt d : JStr)
        (dh : Option V2),
        lookupKey keys2 kid = lookupKey e.keys kid →
        verifyParts hmac { e with keys := keys2 } now sig kid expS fmt d dh =
          verifyParts hmac e now sig kid expS fmt d dh) ∧
    (∀ (V2 : Type) (hmac : HKey → JStr → List Nat) (e : Engine V2) (exp : ℚ)
        (v : V2) (dh : Option V2) (codec : Codec V2) (pv : List Nat)
        (hEnc : Option (List Nat)) (kc : HKey),
        lookupSlot e.registry e.format = some (some codec) →
        codec.encode v = some pv →
        lookupKey e.keys currentName = some kc →
        Option.map codec.encode dh = Option.map some hEnc →
        ¬ ((hwtToken hmac e exp pv hEnc kc).length : ℚ) > e.maxTokenSizeBytes →
        _createWith hmac e exp v dh = Except.ok (hwtToken hmac e exp pv hEnc kc)) ∧
    (∀ (V2 : Type) (hmac : HKey → JStr → List Nat) (e : Engine V2) (now : Int)
        (sig kid expS fmt d : JStr) (dh : Option V2) (codec : Codec V2)
        (parts : List JStr),
        (isExpired e.leewaySeconds now expS).validTime = true →
        lookupSlot e.registry (verifyFormatName e.format fmt) =
          some (some codec) →
        lookupKey e.keys kid = none →
        protoTruthy kid = false →
        (match dh with
          | none => some [expS, fmt, d]
          | some hv => (codec.encode hv).map
              (fun encH => [expS, fmt, d, b64uEncode encH])) = some parts →
        verifyParts hmac e now sig kid expS fmt d dh =
          (if e.errorOnInvalid then Except.error (strLit "hwt unknown key")
           else Except.ok
             { (vrTime (isExpired e.leewaySeconds now expS) :
                 VerifyResult V2) with
               error := some (strLit "hwt unknown key") })) ∧
    (∀ (V2 : Type) (hmac : HKey → JStr → List Nat) (e : Engine V2) (now : Int)
        (sig kid expS fmt d : JStr) (dh : Option V2) (codec : Codec V2)
        (parts : List JStr),
        (isExpired e.leewaySeconds now expS).validTime = true →
        lookupSlot e.registry (verifyFormatName e.format fmt) =
          some (some codec) →
        lookupKey e.keys kid = none →
        protoTruthy kid = true →
        (match dh with
          | none => some [expS, fmt, d]
          | some hv => (codec.encode hv).map
              (fun encH => [expS, fmt, d, b64uEncode encH])) = some parts →
        verifyParts hmac e now sig kid expS fmt d dh = generateThrow e) := by
  refine ⟨?_, ?_, ?_, ?_⟩
  · intro V2 hmac e keys2 now sig kid expS fmt d dh hlk
    cases e
    unfold verifyParts verifyWithCodec
    dsimp only at hlk ⊢
    rw [hlk]
    rfl
  · intro V2 hmac e exp v dh codec pv hEnc kc hc hpv hkc hdh hsize
    rw [_createWith_eq hmac e exp v dh codec pv hEnc kc hc hpv hkc hdh,
      if_neg hsize]
  · intro V2 hmac e now sig kid expS fmt d dh codec parts ht hcodec hkey hpt
      hparts
    exact verifyParts_unknown_key hmac e now sig kid expS fmt d dh codec parts
      ht hcodec hkey hpt hparts
  · intro V2 hmac e now sig kid expS fmt d dh codec parts ht hcodec hkey hpt
      hparts
    rw [verifyParts_codec hmac e now sig kid expS fmt d dh codec ht hcodec]
    exact verifyWithCodec_proto_key hmac e now sig kid expS fmt d dh codec parts
      hparts hkey hpt

/-- C9, counterexample to the claim as stated: the key-id field `current`
names no imported key id, yet the `#keys.current` alias makes the lookup
succeed and the token verifies with `ok = true`. -/
theorem C9_claim_counterexample : ¬ claimC9 := by
  intro hcl
  have h2 := hcl toyHmac toyEngine 0
    (b64uEncode (toyHmac toyKey
      (jsJoin '.' [strLit "9", strLit "j", b64uEncode [5]])))
    currentName (strLit "9") (strLit "j") (b64uEncode [5]) none (by decide)
  exact absurd (congrArg resultOkBit h2) (by decide)

/-- The spec's claim C10 as stated: the verification outcome is invariant
under replacing a token's first field with any other string beginning
`hwt`, the remaining fields unchanged. -/
def claimC10 : Prop :=
  ∀ (hmac : HKey → JStr → List Nat) (e : Engine (List Nat)) (now : Int)
    (p p2 : JStr) (rest : List JStr) (dh : Option (List Nat)),
    hwtPfx.isPrefixOf p = true → hwtPfx.isPrefixOf p2 = true →
    verify hmac e now (jsJoin '.' (p2 :: rest)) dh =
      verify hmac e now (jsJoin '.' (p :: rest)) dh

/-- C10 (corrected): the prefix and key-id fields are indeed outside the
HMAC signing input, and the verification outcome is invariant under
replacing the first field — provided the replacement still begins with
`hwt`, contains no `.` (which would shift the field split), and keeps the
token within the size bound. -/
theorem C10_prefix_field_not_signed {V : Type} (hmac : HKey → JStr → List Nat)
    (e : Engine V) (now : Int) (p p2 : JStr) (y : JStr) (ys : List JStr)
    (dh : Option V)
    (hp : '.' ∉ p) (hp2 : '.' ∉ p2)
    (hpfx : hwtPfx.isPrefixOf p = true) (hpfx2 : hwtPfx.isPrefixOf p2 = true)
    (hlen : ¬ ((jsJoin '.' (p :: y :: ys)).length : ℚ) > e.maxTokenSizeBytes)
    (hlen2 : ¬ ((jsJoin '.' (p2 :: y :: ys)).length : ℚ) > e.maxTokenSizeBytes) :
    verify hmac e now (jsJoin '.' (p2 :: y :: ys)) dh =
      verify hmac e now (jsJoin '.' (p :: y :: ys)) dh :=
  verify_first_field hmac e now p p2 y ys dh hp hp2 hpfx hpfx2 hlen hlen2

/-- C10, witness: replacing the first field `hwt` by `hwtX` leaves the
concrete verification outcome unchanged. -/
theorem C10_prefix_field_not_signed_witness :
    verify toyHmac toyEngine 0
        (jsJoin '.' (strLit "hwtX" :: strLit "s" ::
          [strLit "k", strLit "9", strLit "j", strLit "d"])) none =
      verify toyHmac toyEngine 0
        (jsJoin '.' (strLit "hwt" :: strLit "s" ::
          [strLit "k", strLit "9", strLit "j", strLit "d"])) none :=
  C10_prefix_field_not_signed toyHmac toyEngine 0 (strLit "hwt") (strLit "hwtX")
    (strLit "s") [strLit "k", strLit "9", strLit "j", strLit "d"] none
    (by decide) (by decide) (by decide) (by decide) (by decide) (by decide)

/-- C10, counterexample to the claim as stated: a replacement first field
that itself contains a `.` (such as `hwt.x`) shifts every later field and
changes the verification outcome. -/
theorem C10_claim_counterexample : ¬ claimC10 := by
  intro hcl
  have h2 := hcl toyHmac toyEngine 0 (strLit "hwt") (strLit "hwt.x")
    [strLit "s", strLit "8", strLit "9", strLit "j", strLit "d"] none
    (by decide) (by decide)
  have h3 := congrArg Except.isOk h2
  rw [show (verify toyHmac toyEngine 0
      (jsJoin '.' (strLit "hwt.x" ::
        [strLit "s", strLit "8", strLit "9", strLit "j", strLit "d"]))
      none).isOk = false from rfl,
    show (verify toyHmac toyEngine 0
      (jsJoin '.' (strLit "hwt" ::
        [strLit "s", strLit "8", strLit "9", strLit "j", strLit "d"]))
      none).isOk = true from rfl] at h3
  exact Bool.noConfusion h3






end Hwt
